import Mathlib

/-!
# envreader: typed reads of process environment variables

A shallow embedding of `main.go` of `boatware/envreader`, together with the
parts of Go's standard library that the file calls (`os.Getenv`,
`strings.Split`, `strconv.Atoi`, `strconv.ParseBool`).

Modelling conventions:

* a Go `string` is a Lean `String`; the code only ever compares bytes with
  ASCII characters and splits on the ASCII separators `,` and `=`, which act
  the same on the characters of a text as on its UTF-8 bytes; `len(s)` is
  `String.utf8ByteSize`;
* a Go `int` is 64 bits wide: it is an `Int`, and every arithmetic step of
  the library that could leave the range is wrapped explicitly;
* a Go `(value, error)` result is a pair whose second component is
  `none` for a `nil` error;
* a slice is a `List`, a `map[string]V` is a partial function on `String`;
* the process environment is a partial function from names to values;
* `float64` parsing is not modelled: `strconv.ParseFloat` is a parameter.
-/

namespace Envreader

/-! ## Go standard library -/

/-- The two error causes `strconv` reports: `ErrSyntax` and `ErrRange`. -/
inductive NumError where
  | ErrSyntax
  | ErrRange
  deriving DecidableEq

/-- The process environment: `os.LookupEnv` as a partial function. -/
abbrev Environ := String → Option String

/-- Go `os.Getenv`: the value of the variable, or `""` when it is unset. -/
def Getenv (env : Environ) (key : String) : String :=
  match env key with
  | some v => v
  | none => ""

/-- Go `os.Setenv` on the modelled environment: the variable `key` now holds
`value`, the other variables are unchanged. -/
def Setenv (env : Environ) (key value : String) : Environ :=
  fun k => if k = key then some value else env k

/-- The environment in which no variable is set. -/
def emptyEnviron : Environ := fun _ => none

/-- Splitting a list of characters around every occurrence of `sep`: the
text before the first separator, then the pieces of what follows it. -/
def splitList (sep : Char) : List Char → List (List Char)
  | [] => [[]]
  | c :: cs =>
    if c = sep then [] :: splitList sep cs
    else (c :: (splitList sep cs).headD []) :: (splitList sep cs).tail

/-- Go `strings.Split(s, sep)` for a one-character separator: all the
substrings of `s` between separators, in order (`[""]` for the empty text). -/
def Split (s : String) (sep : Char) : List String :=
  (splitList sep s.data).map String.mk

/-- Width of a Go `int` on the modelled platform (`strconv.IntSize`). -/
def intSize : Nat := 64

/-- Conversion to `int64`: the value reduced into `[-2^63, 2^63)`. -/
def wrapInt64 (x : Int) : Int := (x + 2 ^ 63) % 2 ^ 64 - 2 ^ 63

/-- Conversion to `uint64`: the value reduced modulo `2^64`. -/
def wrapUint64 (x : Nat) : Nat := x % 2 ^ 64

/-- The test `'0' <= c && c <= '9'` on a byte. -/
def isDigitByte (c : Char) : Bool := decide (48 ≤ c.toNat) && decide (c.toNat ≤ 57)

/-- The loop of the fast path of `strconv.Atoi`:
`for _, ch := range []byte(s) { ch -= '0'; if ch > 9 { return 0, syntaxError };
n = n*10 + int(ch) }`; `none` stands for the syntax error. The
subtraction wraps on a byte, so `ch > 9` holds exactly outside `'0'..'9'`. -/
def atoiFastLoop : List Char → Int → Option Int
  | [], n => some n
  | ch :: rest, n =>
    if isDigitByte ch then atoiFastLoop rest (wrapInt64 (n * 10 + ((ch.toNat - 48 : Nat) : Int)))
    else none

/-- `maxUint64` of `strconv`. -/
def maxUint64 : Nat := 2 ^ 64 - 1

/-- The digit loop of `strconv.ParseUint(s, 10, 0)`: `cutoff` is
`maxUint64/10 + 1`, `maxVal` is `1<<64 - 1`. A letter is a digit of value at
least 10, so at base 10 it is a syntax error like any other non-digit. -/
def parseUintLoop : List Char → Nat → Nat × Option NumError
  | [], n => (n, none)
  | c :: rest, n =>
    if isDigitByte c then
      let d := c.toNat - 48
      if n ≥ maxUint64 / 10 + 1 then (maxUint64, some NumError.ErrRange)
      else
        let n10 := wrapUint64 (n * 10)
        let n1 := wrapUint64 (n10 + d)
        if n1 < n10 ∨ n1 > maxUint64 then (maxUint64, some NumError.ErrRange)
        else parseUintLoop rest n1
    else (0, some NumError.ErrSyntax)

/-- Go `strconv.ParseUint(s, 10, 0)`. -/
def ParseUint (s : List Char) : Nat × Option NumError :=
  if s = [] then (0, some NumError.ErrSyntax)
  else parseUintLoop s 0

/-- Go `strconv.ParseInt(s, 10, 0)`: the sign is picked off, the rest is read
as an unsigned number and checked against the range of `int64`. -/
def ParseInt (s : List Char) : Int × Option NumError :=
  match s with
  | [] => (0, some NumError.ErrSyntax)
  | c :: rest =>
    let neg := decide (c = '-')
    let body := if c = '+' then rest else if c = '-' then rest else s
    let (un, err) := ParseUint body
    if err = some NumError.ErrSyntax then (0, err)
    else
      let cutoff : Nat := 2 ^ (intSize - 1)
      if !neg && decide (un ≥ cutoff) then ((cutoff : Int) - 1, some NumError.ErrRange)
      else if neg && decide (un > cutoff) then (-(cutoff : Int), some NumError.ErrRange)
      else
        let n := wrapInt64 (un : Int)
        (if neg then wrapInt64 (-n) else n, none)

/-- Go `strconv.Atoi(s)` on a platform with 64-bit `int`: a fast path for
texts shorter than 19 bytes, which fit an `int` whatever their digits, and
`ParseInt(s, 10, 0)` otherwise (the 32-bit arm of the length test is never
taken and is left out). -/
def Atoi (s : String) : Int × Option NumError :=
  let sLen := s.utf8ByteSize
  if intSize = 64 ∧ 0 < sLen ∧ sLen < 19 then
    match s.data with
    | [] => (0, some NumError.ErrSyntax)
    | c0 :: rest =>
      let body := if c0 = '-' ∨ c0 = '+' then rest else c0 :: rest
      if (c0 = '-' ∨ c0 = '+') ∧ body.length < 1 then (0, some NumError.ErrSyntax)
      else
        match atoiFastLoop body 0 with
        | none => (0, some NumError.ErrSyntax)
        | some n => (if c0 = '-' then wrapInt64 (-n) else n, none)
  else ParseInt s.data

/-- Go `strconv.ParseBool(str)`: the accepted spellings are listed one by
one, nothing else parses. -/
def ParseBool (str : String) : Bool × Option NumError :=
  if str = "1" ∨ str = "t" ∨ str = "T" ∨ str = "TRUE" ∨ str = "true" ∨ str = "True" then
    (true, none)
  else if str = "0" ∨ str = "f" ∨ str = "F" ∨ str = "FALSE" ∨ str = "false" ∨ str = "False" then
    (false, none)
  else (false, some NumError.ErrSyntax)

/-- A Go `map[string]V`: the value stored at each key, if any. -/
def GoMap (V : Type) : Type := String → Option V

/-- The map literal `map[string]V{}`. -/
def GoMap.empty {V : Type} : GoMap V := fun _ => none

/-- The assignment `m[k] = v`: inserts the key or overwrites its value. -/
def GoMap.set {V : Type} (m : GoMap V) (k : String) (v : V) : GoMap V :=
  fun k' => if k' = k then some v else m k'

/-- Whether `k` is a key of the map. -/
def GoMap.hasKey {V : Type} (m : GoMap V) (k : String) : Prop := m k ≠ none

/-! ## main.go -/

/-- `ReadString` of main.go: `os.Getenv(key)`. -/
def ReadString (env : Environ) (key : String) : String :=
  Getenv env key

/-- `ReadInt` of main.go. -/
def ReadInt (env : Environ) (key : String) : Int :=
  let value := ReadString env key
  if value = "" then 0
  else
    let (intVal, err) := Atoi value
    if err ≠ none then 0
    else intVal

/-- `ReadBool` of main.go. -/
def ReadBool (env : Environ) (key : String) : Bool :=
  let value := ReadString env key
  if value = "" then false
  else
    let (boolVal, err) := ParseBool value
    if err ≠ none then false
    else boolVal

/-- `ReadFloat` of main.go; `parseFloat` stands for
`strconv.ParseFloat(·, 64)`. -/
def ReadFloat (parseFloat : String → Float × Option NumError) (env : Environ)
    (key : String) : Float :=
  let value := ReadString env key
  if value = "" then 0
  else
    let (floatVal, err) := parseFloat value
    if err ≠ none then 0
    else floatVal

/-- `ReadStringSlice` of main.go. -/
def ReadStringSlice (env : Environ) (key : String) : List String :=
  let value := ReadString env key
  if value = "" then []
  else
    let array := Split value ','
    array

/-- One turn of the loop of `ReadIntSlice`. -/
def intSliceStep (intArray : List Int) (val : String) : List Int :=
  let (intVal, err) := Atoi val
  if err ≠ none then intArray
  else intArray ++ [intVal]

/-- `ReadIntSlice` of main.go. -/
def ReadIntSlice (env : Environ) (key : String) : List Int :=
  let value := ReadString env key
  if value = "" then []
  else
    let array := Split value ','
    array.foldl intSliceStep []

/-- One turn of the loop of `ReadBoolSlice`. -/
def boolSliceStep (boolArray : List Bool) (val : String) : List Bool :=
  let (boolVal, err) := ParseBool val
  if err ≠ none then boolArray
  else boolArray ++ [boolVal]

/-- `ReadBoolSlice` of main.go. -/
def ReadBoolSlice (env : Environ) (key : String) : List Bool :=
  let value := ReadString env key
  if value = "" then []
  else
    let array := Split value ','
    array.foldl boolSliceStep []

/-- One turn of the loop of `ReadFloatSlice`. -/
def floatSliceStep (parseFloat : String → Float × Option NumError)
    (floatArray : List Float) (val : String) : List Float :=
  let (floatVal, err) := parseFloat val
  if err ≠ none then floatArray
  else floatArray ++ [floatVal]

/-- `ReadFloatSlice` of main.go. -/
def ReadFloatSlice (parseFloat : String → Float × Option NumError) (env : Environ)
    (key : String) : List Float :=
  let value := ReadString env key
  if value = "" then []
  else
    let array := Split value ','
    array.foldl (floatSliceStep parseFloat) []

/-- One turn of the loop of `ReadStringMap`: `keyVal[0]` and `keyVal[1]`
are read only when `len(keyVal) == 2`. -/
def stringMapStep (mapArray : GoMap String) (val : String) : GoMap String :=
  let keyVal := Split val '='
  if keyVal.length ≠ 2 then mapArray
  else mapArray.set (keyVal.getD 0 "") (keyVal.getD 1 "")

/-- `ReadStringMap` of main.go. -/
def ReadStringMap (env : Environ) (key : String) : GoMap String :=
  let value := ReadString env key
  if value = "" then GoMap.empty
  else
    let array := Split value ','
    array.foldl stringMapStep GoMap.empty

/-- One turn of the loop of `ReadIntMap`. -/
def intMapStep (mapArray : GoMap Int) (val : String) : GoMap Int :=
  let keyVal := Split val '='
  if keyVal.length ≠ 2 then mapArray
  else
    let (intVal, err) := Atoi (keyVal.getD 1 "")
    if err ≠ none then mapArray
    else mapArray.set (keyVal.getD 0 "") intVal

/-- `ReadIntMap` of main.go. -/
def ReadIntMap (env : Environ) (key : String) : GoMap Int :=
  let value := ReadString env key
  if value = "" then GoMap.empty
  else
    let array := Split value ','
    array.foldl intMapStep GoMap.empty

/-- One turn of the loop of `ReadBoolMap`. -/
def boolMapStep (mapArray : GoMap Bool) (val : String) : GoMap Bool :=
  let keyVal := Split val '='
  if keyVal.length ≠ 2 then mapArray
  else
    let (boolVal, err) := ParseBool (keyVal.getD 1 "")
    if err ≠ none then mapArray
    else mapArray.set (keyVal.getD 0 "") boolVal

/-- `ReadBoolMap` of main.go. -/
def ReadBoolMap (env : Environ) (key : String) : GoMap Bool :=
  let value := ReadString env key
  if value = "" then GoMap.empty
  else
    let array := Split value ','
    array.foldl boolMapStep GoMap.empty

/-- One turn of the loop of `ReadFloatMap`. -/
def floatMapStep (parseFloat : String → Float × Option NumError)
    (mapArray : GoMap Float) (val : String) : GoMap Float :=
  let keyVal := Split val '='
  if keyVal.length ≠ 2 then mapArray
  else
    let (floatVal, err) := parseFloat (keyVal.getD 1 "")
    if err ≠ none then mapArray
    else mapArray.set (keyVal.getD 0 "") floatVal

/-- `ReadFloatMap` of main.go. -/
def ReadFloatMap (parseFloat : String → Float × Option NumError) (env : Environ)
    (key : String) : GoMap Float :=
  let value := ReadString env key
  if value = "" then GoMap.empty
  else
    let array := Split value ','
    array.foldl (floatMapStep parseFloat) GoMap.empty

/-! ## The textual grammar of the specification -/

/-- Value of a text of decimal digits read from an initial value `n`, most
significant digit first. -/
def decimalAcc : List Char → Nat → Nat
  | [], n => n
  | c :: rest, n => decimalAcc rest (n * 10 + (c.toNat - 48))

/-- Value of a text of decimal digits, base 10. -/
def decimalValue (ds : List Char) : Nat := decimalAcc ds 0

/-- One or more decimal digits. -/
def isDigits (ds : List Char) : Bool := !ds.isEmpty && ds.all isDigitByte

/-- The integer grammar of the specification: an optional sign (`+` or `-`)
followed by one or more decimal digits. -/
def isIntText (s : String) : Bool :=
  match s.data with
  | [] => false
  | c :: rest => if c = '+' ∨ c = '-' then isDigits rest else isDigits (c :: rest)

/-- The integer a text denotes under the grammar of the specification, when
the text follows the grammar and the integer is a Go `int` (64-bit signed). -/
def decodeInt (s : String) : Option Int :=
  match s.data with
  | [] => none
  | c :: rest =>
    if c = '+' then
      if isDigits rest ∧ decimalValue rest < 2 ^ 63 then some (decimalValue rest : Int) else none
    else if c = '-' then
      if isDigits rest ∧ decimalValue rest ≤ 2 ^ 63 then some (-(decimalValue rest : Int))
      else none
    else
      if isDigits (c :: rest) ∧ decimalValue (c :: rest) < 2 ^ 63 then
        some (decimalValue (c :: rest) : Int)
      else none

/-- The decimal digits of `n`, most significant first; `fuel` bounds the
number of digits. -/
def natDigits : Nat → Nat → List Char
  | 0, _ => []
  | fuel + 1, n =>
    if n < 10 then [Char.ofNat (48 + n)]
    else natDigits fuel (n / 10) ++ [Char.ofNat (48 + n % 10)]

/-- The base-10 encoding of a natural number, without leading zeros. -/
def formatNat (n : Nat) : String := String.mk (natDigits (n + 1) n)

/-- The base-10 encoding of an integer: a `-` sign for a negative one, then
the digits of its absolute value. -/
def formatInt (v : Int) : String :=
  if v < 0 then "-" ++ formatNat v.natAbs else formatNat v.natAbs

/-- The texts of a list joined with a one-character separator (Go
`strings.Join`). -/
def Join : List String → Char → String
  | [], _ => ""
  | [a], _ => a
  | a :: b :: rest, sep => a ++ String.singleton sep ++ Join (b :: rest) sep

/-- A text with every letter lower-cased. -/
def lowerText (s : String) : String := String.mk (s.data.map Char.toLower)

/-- The value of a Go `(value, error)` result whose error is `nil`. -/
def okValue {α : Type} (r : α × Option NumError) : Option α :=
  if r.2 = none then some r.1 else none

/-- What `strconv.Atoi` parsed, if it reported no error. -/
def atoiResult (s : String) : Option Int := okValue (Atoi s)

/-- What `strconv.ParseBool` parsed, if it reported no error. -/
def parseBoolResult (s : String) : Option Bool := okValue (ParseBool s)

/-- Number of occurrences of a character in a text. -/
def countChar (s : String) (c : Char) : Nat := s.data.count c

/-- Key text of a pair: what stands before its first `=`. -/
def keyPart (seg : String) : String :=
  String.mk (seg.data.takeWhile (fun c => c != '='))

/-- Value text of a pair: what follows its first `=`. -/
def valuePart (seg : String) : String :=
  String.mk (seg.data.dropWhile (fun c => c != '=')).tail

/-- The key and value text of a segment that contains exactly one `=`; a
segment with none or with several is not a pair. -/
def decodePair (seg : String) : Option (String × String) :=
  if countChar seg '=' = 1 then some (keyPart seg, valuePart seg) else none

/-- The key and integer of a segment that contains exactly one `=` and whose
value text is a valid integer. -/
def decodeIntPair (seg : String) : Option (String × Int) :=
  match decodePair seg with
  | none => none
  | some (k, v) =>
    match decodeInt v with
    | none => none
    | some n => some (k, n)

/-- The key and boolean of a segment that contains exactly one `=` and whose
value text is an accepted boolean spelling. -/
def decodeBoolPair (seg : String) : Option (String × Bool) :=
  match decodePair seg with
  | none => none
  | some (k, v) =>
    match parseBoolResult v with
    | none => none
    | some b => some (k, b)

/-- The map after storing a decoded pair; unchanged when there is none. -/
def GoMap.store {V : Type} (m : GoMap V) : Option (String × V) → GoMap V
  | none => m
  | some p => m.set p.1 p.2

/-- The value of the last pair of a list whose key is `k`, if there is one. -/
def lastValue {V : Type} (pairs : List (String × V)) (k : String) : Option V :=
  (pairs.reverse.find? (fun p => decide (p.1 = k))).map Prod.snd

/-! ## Lemmas on the library model -/

theorem splitList_ne_nil (sep : Char) (l : List Char) : splitList sep l ≠ [] := by
  cases l with
  | nil => simp [splitList]
  | cons c cs => simp only [splitList]; split <;> simp

theorem splitList_of_not_mem (sep : Char) (l : List Char) (h : sep ∉ l) :
    splitList sep l = [l] := by
  induction l with
  | nil => rfl
  | cons c cs ih =>
    have hc : c ≠ sep := fun e => h (by simp [e])
    have hcs : sep ∉ cs := fun e => h (List.mem_cons_of_mem _ e)
    simp [splitList, hc, ih hcs]

theorem splitList_append_sep (sep : Char) (l r : List Char) (h : sep ∉ l) :
    splitList sep (l ++ sep :: r) = l :: splitList sep r := by
  induction l with
  | nil => simp [splitList]
  | cons c cs ih =>
    have hc : c ≠ sep := fun e => h (by simp [e])
    have hcs : sep ∉ cs := fun e => h (List.mem_cons_of_mem _ e)
    simp [splitList, hc, ih hcs]

theorem Split_of_not_mem (sep : Char) (s : String) (h : sep ∉ s.data) :
    Split s sep = [s] := by
  simp [Split, splitList_of_not_mem sep s.data h]

theorem Split_Join (sep : Char) (L : List String) (hL : L ≠ [])
    (h : ∀ s ∈ L, sep ∉ s.data) : Split (Join L sep) sep = L := by
  induction L with
  | nil => exact absurd rfl hL
  | cons a rest ih =>
    cases rest with
    | nil => exact Split_of_not_mem sep a (h a (by simp))
    | cons b rest =>
      have ha : sep ∉ a.data := h a (by simp)
      have ih' := ih (by simp) (fun s hs => h s (List.mem_cons_of_mem _ hs))
      simp only [Split] at ih' ⊢
      have hd : (Join (a :: b :: rest) sep).data = a.data ++ sep :: (Join (b :: rest) sep).data := by
        have hs : (String.singleton sep).data = [sep] := rfl
        simp only [Join, String.data_append, hs, List.append_assoc, List.singleton_append]
      rw [hd, splitList_append_sep sep _ _ ha, List.map_cons, ih']

theorem wrapInt64_of_range (x : Int) (h1 : -2 ^ 63 ≤ x) (h2 : x < 2 ^ 63) :
    wrapInt64 x = x := by
  unfold wrapInt64
  omega

theorem wrapInt64_range (x : Int) : -2 ^ 63 ≤ wrapInt64 x ∧ wrapInt64 x < 2 ^ 63 := by
  unfold wrapInt64
  omega

theorem le_decimalAcc (ds : List Char) (n : Nat) : n ≤ decimalAcc ds n := by
  induction ds generalizing n with
  | nil => simp [decimalAcc]
  | cons c rest ih =>
    simp only [decimalAcc]
    have := ih (n * 10 + (c.toNat - 48))
    omega

theorem decimalAcc_lt (ds : List Char) (n : Nat) (hd : ds.all isDigitByte = true) :
    decimalAcc ds n < (n + 1) * 10 ^ ds.length := by
  induction ds generalizing n with
  | nil => simp [decimalAcc]
  | cons c rest ih =>
    simp only [List.all_cons, Bool.and_eq_true] at hd
    have hc := hd.1
    simp only [isDigitByte, Bool.and_eq_true, decide_eq_true_eq] at hc
    have h1 := ih (n * 10 + (c.toNat - 48)) hd.2
    simp only [decimalAcc, List.length_cons, pow_succ]
    have h2 : (n * 10 + (c.toNat - 48) + 1) * 10 ^ rest.length
        ≤ (n + 1) * 10 * 10 ^ rest.length :=
      Nat.mul_le_mul_right _ (by omega)
    calc decimalAcc rest (n * 10 + (c.toNat - 48))
        < (n * 10 + (c.toNat - 48) + 1) * 10 ^ rest.length := h1
      _ ≤ (n + 1) * 10 * 10 ^ rest.length := h2
      _ = (n + 1) * (10 ^ rest.length * 10) := by ring

theorem atoiFastLoop_digits (ds : List Char) (n : Nat) (hd : ds.all isDigitByte = true)
    (hb : decimalAcc ds n < 2 ^ 63) :
    atoiFastLoop ds (n : Int) = some (decimalAcc ds n : Int) := by
  induction ds generalizing n with
  | nil => simp [atoiFastLoop, decimalAcc]
  | cons c rest ih =>
    simp only [List.all_cons, Bool.and_eq_true] at hd
    simp only [decimalAcc] at hb ⊢
    have hle := le_decimalAcc rest (n * 10 + (c.toNat - 48))
    have hw : wrapInt64 ((n : Int) * 10 + ((c.toNat - 48 : Nat) : Int))
        = ((n * 10 + (c.toNat - 48) : Nat) : Int) := by
      rw [wrapInt64_of_range] <;> push_cast <;> omega
    simp only [atoiFastLoop, hd.1, if_true, hw]
    exact ih _ hd.2 hb

theorem atoiFastLoop_nondigits (ds : List Char) (n : Int) (hd : ds.all isDigitByte = false) :
    atoiFastLoop ds n = none := by
  induction ds generalizing n with
  | nil => simp at hd
  | cons c rest ih =>
    simp only [atoiFastLoop]
    split
    · rename_i hc
      simp only [List.all_cons, hc, Bool.true_and] at hd
      exact ih _ hd
    · rfl

theorem parseUintLoop_digits (ds : List Char) (n : Nat) (hd : ds.all isDigitByte = true)
    (hn : n ≤ maxUint64) :
    parseUintLoop ds n =
      if decimalAcc ds n ≤ maxUint64 then (decimalAcc ds n, none)
      else (maxUint64, some NumError.ErrRange) := by
  induction ds generalizing n with
  | nil => simp [parseUintLoop, decimalAcc, hn]
  | cons c rest ih =>
    simp only [List.all_cons, Bool.and_eq_true] at hd
    have hc := hd.1
    simp only [isDigitByte, Bool.and_eq_true, decide_eq_true_eq] at hc
    have hle := le_decimalAcc rest (n * 10 + (c.toNat - 48))
    simp only [parseUintLoop, hd.1, if_true, decimalAcc]
    unfold maxUint64 wrapUint64 at *
    by_cases h1 : n ≥ (2 ^ 64 - 1) / 10 + 1
    · rw [if_pos h1, if_neg (by omega)]
    · rw [if_neg h1]
      by_cases h2 : (n * 10 % 2 ^ 64 + (c.toNat - 48)) % 2 ^ 64 < n * 10 % 2 ^ 64 ∨
          (n * 10 % 2 ^ 64 + (c.toNat - 48)) % 2 ^ 64 > 2 ^ 64 - 1
      · rw [if_pos h2, if_neg (by omega)]
      · rw [if_neg h2]
        have h3 : (n * 10 % 2 ^ 64 + (c.toNat - 48)) % 2 ^ 64 = n * 10 + (c.toNat - 48) := by
          omega
        rw [h3]
        exact ih _ hd.2 (by omega)

theorem parseUintLoop_nondigits (ds : List Char) (n : Nat)
    (hd : ds.all isDigitByte = false) :
    parseUintLoop ds n = (0, some NumError.ErrSyntax) ∨
      parseUintLoop ds n = (maxUint64, some NumError.ErrRange) := by
  induction ds generalizing n with
  | nil => simp at hd
  | cons c rest ih =>
    simp only [parseUintLoop]
    split
    · rename_i hc
      simp only [List.all_cons, hc, Bool.true_and] at hd
      split
      · exact Or.inr rfl
      · split
        · exact Or.inr rfl
        · exact ih _ hd
    · exact Or.inl rfl

theorem ParseUint_digits (ds : List Char) (hd : isDigits ds = true) :
    ParseUint ds =
      if decimalValue ds ≤ maxUint64 then (decimalValue ds, none)
      else (maxUint64, some NumError.ErrRange) := by
  simp only [isDigits, Bool.and_eq_true, Bool.not_eq_true', List.isEmpty_eq_false] at hd
  have hne : ds ≠ [] := by
    intro h
    simp [h] at hd
  simp only [ParseUint, hne, if_false, decimalValue]
  exact parseUintLoop_digits ds 0 hd.2 (by simp [maxUint64])

theorem ParseUint_nondigits (ds : List Char) (hd : isDigits ds = false) :
    ParseUint ds = (0, some NumError.ErrSyntax) ∨
      ParseUint ds = (maxUint64, some NumError.ErrRange) := by
  unfold ParseUint
  by_cases hne : ds = []
  · simp [hne]
  · rw [if_neg hne]
    apply parseUintLoop_nondigits
    cases ds with
    | nil => exact absurd rfl hne
    | cons c rest => simpa [isDigits] using hd

theorem maxUint64_eq : maxUint64 = 18446744073709551615 := by
  norm_num [maxUint64]

theorem ParseUint_cases (ds : List Char) :
    (isDigits ds = true ∧ decimalValue ds ≤ 18446744073709551615 ∧
        ParseUint ds = (decimalValue ds, none)) ∨
    (isDigits ds = false ∧ ParseUint ds = (0, some NumError.ErrSyntax)) ∨
    ((isDigits ds = true → 18446744073709551615 < decimalValue ds) ∧
        ParseUint ds = (18446744073709551615, some NumError.ErrRange)) := by
  by_cases hd : isDigits ds = true
  · have h := ParseUint_digits ds hd
    rw [maxUint64_eq] at h
    by_cases hr : decimalValue ds ≤ 18446744073709551615
    · rw [if_pos hr] at h
      exact Or.inl ⟨hd, hr, h⟩
    · rw [if_neg hr] at h
      exact Or.inr (Or.inr ⟨fun _ => by omega, h⟩)
  · simp only [Bool.not_eq_true] at hd
    rcases ParseUint_nondigits ds hd with h | h
    · exact Or.inr (Or.inl ⟨hd, h⟩)
    · rw [maxUint64_eq] at h
      exact Or.inr (Or.inr ⟨fun h' => by simp [hd] at h', h⟩)

theorem wrapInt64_natCast (x : Nat) (hx : x < 9223372036854775808) :
    wrapInt64 (x : Int) = x :=
  wrapInt64_of_range _ (by omega) (by omega)

theorem wrapInt64_neg_natCast (x : Nat) (hx : x ≤ 9223372036854775808) :
    wrapInt64 (-wrapInt64 (x : Int)) = -(x : Int) := by
  unfold wrapInt64
  omega

theorem ParseInt_spec (l : List Char) : okValue (ParseInt l) = decodeInt (String.mk l) := by
  cases l with
  | nil => simp [ParseInt, okValue, decodeInt]
  | cons c rest =>
    by_cases hp : c = '+'
    · subst hp
      simp only [ParseInt, decodeInt, if_true, intSize]
      rcases ParseUint_cases rest with ⟨hd, hr, h⟩ | ⟨hd, h⟩ | ⟨hd, h⟩
      · rw [h]
        by_cases h63 : decimalValue rest < 9223372036854775808
        · simp [okValue, hd, h63, wrapInt64_natCast _ h63, Nat.not_le.mpr h63]
        · simp [okValue, hd, h63, Nat.le_of_not_lt h63]
      · rw [h]
        simp [okValue, hd]
      · rw [h]
        by_cases hd' : isDigits rest = true
        · have := hd hd'
          have h63 : ¬ decimalValue rest < 9223372036854775808 := by omega
          simp [okValue, h63]
        · simp [okValue, hd']
    · by_cases hm : c = '-'
      · subst hm
        simp only [ParseInt, decodeInt, if_true, intSize, if_neg hp]
        rcases ParseUint_cases rest with ⟨hd, hr, h⟩ | ⟨hd, h⟩ | ⟨hd, h⟩
        · rw [h]
          by_cases h63 : decimalValue rest ≤ 9223372036854775808
          · simp [okValue, hd, h63, wrapInt64_neg_natCast _ h63, Nat.not_lt.mpr h63]
          · simp [okValue, hd, h63, Nat.lt_of_not_le h63]
        · rw [h]
          simp [okValue, hd]
        · rw [h]
          by_cases hd' : isDigits rest = true
          · have := hd hd'
            have h63 : ¬ decimalValue rest ≤ 9223372036854775808 := by omega
            simp [okValue, h63]
          · simp [okValue, hd']
      · simp only [ParseInt, decodeInt, if_neg hp, if_neg hm, intSize, decide_eq_false hm]
        rcases ParseUint_cases (c :: rest) with ⟨hd, hr, h⟩ | ⟨hd, h⟩ | ⟨hd, h⟩
        · rw [h]
          by_cases h63 : decimalValue (c :: rest) < 9223372036854775808
          · simp [okValue, hd, h63, wrapInt64_natCast _ h63, Nat.not_le.mpr h63]
          · simp [okValue, hd, h63, Nat.le_of_not_lt h63]
        · rw [h]
          simp [okValue, hd]
        · rw [h]
          by_cases hd' : isDigits (c :: rest) = true
          · have := hd hd'
            have h63 : ¬ decimalValue (c :: rest) < 9223372036854775808 := by omega
            simp [okValue, h63]
          · simp [okValue, hd']

theorem utf8ByteSize_go_ge (l : List Char) : l.length ≤ String.utf8ByteSize.go l := by
  induction l with
  | nil => simp [String.utf8ByteSize.go]
  | cons c cs ih =>
    have := Char.utf8Size_pos c
    simp only [String.utf8ByteSize.go, List.length_cons]
    omega

theorem length_le_utf8ByteSize (s : String) : s.data.length ≤ s.utf8ByteSize := by
  cases s with
  | mk l => exact utf8ByteSize_go_ge l

theorem decimalValue_lt_of_length (ds : List Char) (hd : ds.all isDigitByte = true)
    (hl : ds.length ≤ 18) : decimalValue ds < 9223372036854775808 := by
  have h := decimalAcc_lt ds 0 hd
  have h2 : 10 ^ ds.length ≤ 10 ^ 18 := Nat.pow_le_pow_right (by norm_num) hl
  unfold decimalValue
  omega

theorem atoiFastLoop_spec (ds : List Char) (hl : ds.length ≤ 18) :
    atoiFastLoop ds 0 =
      if ds.all isDigitByte = true then some (decimalValue ds : Int) else none := by
  by_cases hd : ds.all isDigitByte = true
  · rw [if_pos hd]
    have hb := decimalValue_lt_of_length ds hd hl
    exact atoiFastLoop_digits ds 0 hd (by unfold decimalValue at hb; omega)
  · rw [if_neg hd]
    exact atoiFastLoop_nondigits ds 0 (by simpa using hd)

theorem Atoi_spec (s : String) : atoiResult s = decodeInt s := by
  unfold atoiResult Atoi
  by_cases hfast : intSize = 64 ∧ 0 < s.utf8ByteSize ∧ s.utf8ByteSize < 19
  · simp only [hfast, and_self, if_true]
    have hlen := length_le_utf8ByteSize s
    have hlt := hfast.2.2
    unfold decodeInt
    cases hdata : s.data with
    | nil => simp [okValue]
    | cons c rest =>
      rw [hdata] at hlen
      simp only [List.length_cons] at hlen
      by_cases hp : c = '+'
      · subst hp
        have hnm : ¬ ('+' = '-') := by decide
        simp only [if_true, or_true, true_and, hnm, if_false]
        cases rest with
        | nil => simp [okValue, isDigits]
        | cons d ds =>
          rw [atoiFastLoop_spec (d :: ds) (by simp only [List.length_cons] at hlen ⊢; omega)]
          by_cases hd : (d :: ds).all isDigitByte = true
          · have hb := decimalValue_lt_of_length (d :: ds) hd
              (by simp only [List.length_cons] at hlen ⊢; omega)
            have hdig : isDigits (d :: ds) = true := by simpa [isDigits] using hd
            simp [okValue, hd, hb, hdig]
          · have hdig : isDigits (d :: ds) = false := by simpa [isDigits] using hd
            simp [okValue, hd, hdig]
      · by_cases hm : c = '-'
        · subst hm
          simp only [if_true, true_or, true_and, hp, if_false]
          cases rest with
          | nil => simp [okValue, isDigits]
          | cons d ds =>
            rw [atoiFastLoop_spec (d :: ds) (by simp only [List.length_cons] at hlen ⊢; omega)]
            by_cases hd : (d :: ds).all isDigitByte = true
            · have hb := decimalValue_lt_of_length (d :: ds) hd
                (by simp only [List.length_cons] at hlen ⊢; omega)
              have hdig : isDigits (d :: ds) = true := by simpa [isDigits] using hd
              have hw : wrapInt64 (-(decimalValue (d :: ds) : Int)) = -(decimalValue (d :: ds) : Int) :=
                wrapInt64_of_range _ (by omega) (by omega)
              simp [okValue, hd, Nat.le_of_lt hb, hdig, hw]
            · have hdig : isDigits (d :: ds) = false := by simpa [isDigits] using hd
              simp [okValue, hd, hdig]
        · simp only [hp, hm, or_self, false_and, if_false]
          rw [atoiFastLoop_spec (c :: rest) (by simp only [List.length_cons] at hlen ⊢; omega)]
          by_cases hd : (c :: rest).all isDigitByte = true
          · have hb := decimalValue_lt_of_length (c :: rest) hd
              (by simp only [List.length_cons] at hlen ⊢; omega)
            have hdig : isDigits (c :: rest) = true := by simpa [isDigits] using hd
            simp [okValue, hd, hb, hdig]
          · have hdig : isDigits (c :: rest) = false := by simpa [isDigits] using hd
            simp [okValue, hd, hdig]
  · simp only [hfast, if_false]
    have h := ParseInt_spec s.data
    simpa using h

theorem decimalAcc_append (xs ys : List Char) (n : Nat) :
    decimalAcc (xs ++ ys) n = decimalAcc ys (decimalAcc xs n) := by
  induction xs generalizing n with
  | nil => rfl
  | cons c rest ih =>
    rw [List.cons_append]
    simp only [decimalAcc]
    exact ih _

theorem toNat_digitChar (d : Nat) (hd : d < 10) : (Char.ofNat (48 + d)).toNat = 48 + d := by
  interval_cases d <;> rfl

theorem isDigitByte_digitChar (d : Nat) (hd : d < 10) :
    isDigitByte (Char.ofNat (48 + d)) = true := by
  simp only [isDigitByte, toNat_digitChar d hd, Bool.and_eq_true, decide_eq_true_eq]
  omega

theorem natDigits_spec (fuel n : Nat) (h : n < fuel) :
    (natDigits fuel n).all isDigitByte = true ∧ natDigits fuel n ≠ [] ∧
      decimalValue (natDigits fuel n) = n := by
  induction fuel generalizing n with
  | zero => omega
  | succ fuel ih =>
    unfold natDigits
    by_cases h10 : n < 10
    · simp only [h10, if_true]
      refine ⟨by simp [isDigitByte_digitChar n h10], by simp, ?_⟩
      simp [decimalValue, decimalAcc, toNat_digitChar n h10]
    · simp only [h10, if_false]
      have hlt : n / 10 < fuel := by omega
      obtain ⟨h1, _, h3⟩ := ih (n / 10) hlt
      have hm : n % 10 < 10 := Nat.mod_lt _ (by norm_num)
      refine ⟨by simp [h1, isDigitByte_digitChar _ hm], by simp, ?_⟩
      unfold decimalValue at h3 ⊢
      rw [decimalAcc_append, h3]
      simp only [decimalAcc, toNat_digitChar _ hm]
      omega

theorem formatNat_spec (n : Nat) :
    isDigits (formatNat n).data = true ∧ decimalValue (formatNat n).data = n := by
  obtain ⟨h1, h2, h3⟩ := natDigits_spec (n + 1) n (Nat.lt_succ_self n)
  refine ⟨?_, h3⟩
  simp only [formatNat, isDigits, Bool.and_eq_true, Bool.not_eq_true', List.isEmpty_eq_false]
  exact ⟨by simpa using h2, h1⟩

theorem isDigits_head (c : Char) (rest : List Char) (h : isDigits (c :: rest) = true) :
    c ≠ '+' ∧ c ≠ '-' := by
  simp only [isDigits, List.isEmpty_cons, Bool.not_false, List.all_cons, Bool.true_and,
    Bool.and_eq_true, isDigitByte, decide_eq_true_eq] at h
  constructor
  · intro hc
    rw [hc] at h
    have : ('+' : Char).toNat = 43 := rfl
    omega
  · intro hc
    rw [hc] at h
    have : ('-' : Char).toNat = 45 := rfl
    omega

theorem decodeInt_digits (s : String) (hd : isDigits s.data = true)
    (hv : decimalValue s.data < 9223372036854775808) :
    decodeInt s = some (decimalValue s.data : Int) := by
  unfold decodeInt
  cases hdata : s.data with
  | nil => simp [hdata, isDigits] at hd
  | cons c rest =>
    rw [hdata] at hd hv
    obtain ⟨hp, hm⟩ := isDigits_head c rest hd
    simp [hp, hm, hd, hv]

theorem decodeInt_plus (s : String) (hd : isDigits s.data = true)
    (hv : decimalValue s.data < 9223372036854775808) :
    decodeInt ("+" ++ s) = some (decimalValue s.data : Int) := by
  have hdata : ("+" ++ s).data = '+' :: s.data := by
    rw [String.data_append]
    rfl
  unfold decodeInt
  rw [hdata]
  simp [hd, hv]

theorem decodeInt_minus (s : String) (hd : isDigits s.data = true)
    (hv : decimalValue s.data ≤ 9223372036854775808) :
    decodeInt ("-" ++ s) = some (-(decimalValue s.data : Int)) := by
  have hdata : ("-" ++ s).data = '-' :: s.data := by
    rw [String.data_append]
    rfl
  have hne : ¬ ('-' = '+') := by decide
  unfold decodeInt
  rw [hdata]
  simp [hd, hv, hne]

theorem decodeInt_formatInt (v : Int) (h1 : -2 ^ 63 ≤ v) (h2 : v < 2 ^ 63) :
    decodeInt (formatInt v) = some v := by
  obtain ⟨hd, hv⟩ := formatNat_spec v.natAbs
  unfold formatInt
  by_cases hneg : v < 0
  · rw [if_pos hneg, decodeInt_minus _ hd (by omega), hv]
    congr 1
    omega
  · rw [if_neg hneg, decodeInt_digits _ hd (by omega), hv]
    congr 1
    omega

theorem decodeInt_plus_formatInt (v : Int) (h1 : 0 ≤ v) (h2 : v < 2 ^ 63) :
    decodeInt ("+" ++ formatInt v) = some v := by
  obtain ⟨hd, hv⟩ := formatNat_spec v.natAbs
  unfold formatInt
  rw [if_neg (by omega), decodeInt_plus _ hd (by omega), hv]
  congr 1
  omega

theorem Getenv_of_some (env : Environ) (key raw : String) (h : env key = some raw) :
    Getenv env key = raw := by
  simp [Getenv, h]

theorem Getenv_of_none (env : Environ) (key : String) (h : env key = none) :
    Getenv env key = "" := by
  simp [Getenv, h]

theorem ReadInt_eq (env : Environ) (key : String) :
    ReadInt env key = (decodeInt (Getenv env key)).getD 0 := by
  have h := Atoi_spec (Getenv env key)
  unfold atoiResult okValue at h
  unfold ReadInt ReadString
  by_cases he : Getenv env key = ""
  · simp [he, decodeInt]
  · simp only [he, if_false]
    by_cases herr : (Atoi (Getenv env key)).2 = none
    · rw [if_pos herr] at h
      simp [herr, ← h]
    · rw [if_neg herr] at h
      simp [herr, ← h]

theorem decodeInt_of_not_intText (s : String) (h : isIntText s = false) :
    decodeInt s = none := by
  unfold isIntText at h
  unfold decodeInt
  cases hdata : s.data with
  | nil => rfl
  | cons c rest =>
    rw [hdata] at h
    simp only at h ⊢
    by_cases hp : c = '+'
    · simp only [hp, true_or, if_true] at h ⊢
      simp [h]
    · by_cases hm : c = '-'
      · simp only [hm, or_true, if_true] at h ⊢
        simp [h]
      · simp only [hp, hm, or_self, if_false] at h ⊢
        simp [h]

theorem decodeInt_range (s : String) (v : Int) (h : decodeInt s = some v) :
    -2 ^ 63 ≤ v ∧ v < 2 ^ 63 := by
  unfold decodeInt at h
  cases hdata : s.data with
  | nil => simp [hdata] at h
  | cons c rest =>
    rw [hdata] at h
    simp only at h
    split_ifs at h with h1 h2 h3 h4 h5 <;> simp only [Option.some.injEq, reduceCtorEq] at h
    · omega
    · omega
    · omega

theorem Split_empty (sep : Char) : Split "" sep = [""] := rfl

theorem ParseBool_empty : ParseBool "" = (false, some NumError.ErrSyntax) := by decide

/-! ## The claims -/

/-- C1: for every environment and every variable name that is unset or set to
the empty string, each of the twelve read operations returns its zero value
or empty collection: `ReadString` returns `""`, `ReadInt` 0, `ReadBool`
false, `ReadFloat` 0, every `Read*Slice` a sequence of length 0 and every
`Read*Map` a mapping with no keys. -/
theorem C1_unset_or_empty_reads_zero (parseFloat : String → Float × Option NumError)
    (env : Environ) (key : String) (h : env key = none ∨ env key = some "") :
    ReadString env key = "" ∧ ReadInt env key = 0 ∧ ReadBool env key = false ∧
    ReadFloat parseFloat env key = 0 ∧
    (ReadStringSlice env key).length = 0 ∧ (ReadIntSlice env key).length = 0 ∧
    (ReadBoolSlice env key).length = 0 ∧ (ReadFloatSlice parseFloat env key).length = 0 ∧
    (∀ k, ¬ (ReadStringMap env key).hasKey k) ∧ (∀ k, ¬ (ReadIntMap env key).hasKey k) ∧
    (∀ k, ¬ (ReadBoolMap env key).hasKey k) ∧
    (∀ k, ¬ (ReadFloatMap parseFloat env key).hasKey k) := by
  have hv : Getenv env key = "" := by
    rcases h with h | h
    · exact Getenv_of_none env key h
    · exact Getenv_of_some env key "" h
  simp [ReadString, ReadInt, ReadBool, ReadFloat, ReadStringSlice, ReadIntSlice, ReadBoolSlice,
    ReadFloatSlice, ReadStringMap, ReadIntMap, ReadBoolMap, ReadFloatMap, hv, GoMap.hasKey,
    GoMap.empty]

/-- Witness of C1: the variable `EMPTY` is set to the empty string. -/
theorem C1_unset_or_empty_reads_zero_witness :
    (Setenv emptyEnviron "EMPTY" "" "EMPTY" = none ∨
      Setenv emptyEnviron "EMPTY" "" "EMPTY" = some "") ∧
    ReadInt (Setenv emptyEnviron "EMPTY" "") "EMPTY" = 0 ∧
    (ReadBoolSlice (Setenv emptyEnviron "EMPTY" "") "EMPTY").length = 0 ∧
    (∀ k, ¬ (ReadIntMap (Setenv emptyEnviron "EMPTY" "") "EMPTY").hasKey k) :=
  have h := C1_unset_or_empty_reads_zero (fun _ => (0, none)) (Setenv emptyEnviron "EMPTY" "")
    "EMPTY" (Or.inr (by decide))
  ⟨Or.inr (by decide), h.2.1, h.2.2.2.2.2.2.1, h.2.2.2.2.2.2.2.2.2.1⟩

/-- C2: integer scalar round trip. For every integer `v` representable as a
Go `int` (64-bit signed) and every variable name, if the raw text of the
variable is the base-10 encoding of `v`, optionally with a leading `+` when
`v` is not negative, then `ReadInt` of that name returns exactly `v`. -/
theorem C2_int_round_trip (env : Environ) (key raw : String) (v : Int)
    (hmin : -2 ^ 63 ≤ v) (hmax : v < 2 ^ 63) (hset : env key = some raw)
    (henc : raw = formatInt v ∨ (0 ≤ v ∧ raw = "+" ++ formatInt v)) :
    ReadInt env key = v := by
  rw [ReadInt_eq, Getenv_of_some env key raw hset]
  rcases henc with h | ⟨h0, h⟩
  · rw [h, decodeInt_formatInt v hmin hmax]
    rfl
  · rw [h, decodeInt_plus_formatInt v h0 hmax]
    rfl

/-- Witness of C2: the smallest Go `int`, written in base 10. -/
theorem C2_int_round_trip_witness :
    Setenv emptyEnviron "MIN" "-9223372036854775808" "MIN" = some "-9223372036854775808" ∧
    "-9223372036854775808" = formatInt (-9223372036854775808) ∧
    ReadInt (Setenv emptyEnviron "MIN" "-9223372036854775808") "MIN" = -9223372036854775808 :=
  ⟨by decide, by decide,
    C2_int_round_trip (Setenv emptyEnviron "MIN" "-9223372036854775808") "MIN"
      "-9223372036854775808" (-9223372036854775808) (by decide) (by decide) (by decide)
      (Or.inl (by decide))⟩

/-- C3: integer parse failure is absorbed into the zero value. For every raw
text that is not an optional sign (`+` or `-`) followed by one or more
decimal digits, `ReadInt` returns 0; and for any raw text whatever the result
of `ReadInt` is a plain Go `int`, with no error or "missing" signal beside
it. -/
theorem C3_int_failure_reads_zero (env : Environ) (key : String) :
    (isIntText (Getenv env key) = false → ReadInt env key = 0) ∧
    (-2 ^ 63 ≤ ReadInt env key ∧ ReadInt env key < 2 ^ 63) := by
  rw [ReadInt_eq]
  constructor
  · intro h
    rw [decodeInt_of_not_intText _ h]
    rfl
  · cases hd : decodeInt (Getenv env key) with
    | none => exact ⟨by decide, by decide⟩
    | some v => exact decodeInt_range _ v hd

/-- Witness of C3: the text `12a` is not an integer and reads as 0. -/
theorem C3_int_failure_reads_zero_witness :
    isIntText (Getenv (Setenv emptyEnviron "N" "12a") "N") = false ∧
    ReadInt (Setenv emptyEnviron "N" "12a") "N" = 0 :=
  ⟨by decide, (C3_int_failure_reads_zero (Setenv emptyEnviron "N" "12a") "N").1 (by decide)⟩

/-! ### Booleans -/

theorem ReadBool_eq (env : Environ) (key : String) :
    ReadBool env key = (parseBoolResult (Getenv env key)).getD false := by
  unfold ReadBool ReadString parseBoolResult okValue
  by_cases he : Getenv env key = ""
  · rw [he]
    decide
  · simp only [he, if_false]
    by_cases herr : (ParseBool (Getenv env key)).2 = none <;> simp [herr]

theorem parseBoolResult_true_iff (s : String) :
    parseBoolResult s = some true ↔ s ∈ ["1", "t", "T", "TRUE", "true", "True"] := by
  unfold parseBoolResult okValue ParseBool
  simp only [List.mem_cons, List.mem_singleton, List.not_mem_nil, or_false]
  split_ifs <;> simp_all

theorem parseBoolResult_false_iff (s : String) :
    parseBoolResult s = some false ↔ s ∈ ["0", "f", "F", "FALSE", "false", "False"] := by
  unfold parseBoolResult okValue ParseBool
  simp only [List.mem_cons, List.mem_singleton, List.not_mem_nil, or_false]
  split_ifs with h1 h2 h3 h4
  · simp only [Option.some.injEq, Bool.true_eq_false, false_iff]
    rcases h1 with h | h | h | h | h | h <;> subst h <;> decide
  · simp at h2
  · simp [h3]
  · simp at h4
  · simp_all
  · simp_all

theorem ReadBool_true_iff (env : Environ) (key : String) :
    ReadBool env key = true ↔ Getenv env key ∈ ["1", "t", "T", "TRUE", "true", "True"] := by
  rw [ReadBool_eq, ← parseBoolResult_true_iff]
  cases parseBoolResult (Getenv env key) <;> simp

theorem foldl_boolSliceStep (segs : List String) (acc : List Bool) :
    segs.foldl boolSliceStep acc = acc ++ segs.filterMap parseBoolResult := by
  induction segs generalizing acc with
  | nil => simp
  | cons seg rest ih =>
    rw [List.foldl_cons, ih]
    unfold boolSliceStep parseBoolResult okValue
    by_cases herr : (ParseBool seg).2 = none <;> simp [herr, List.filterMap_cons]

theorem ReadBoolSlice_eq (env : Environ) (key : String) :
    ReadBoolSlice env key = (Split (Getenv env key) ',').filterMap parseBoolResult := by
  unfold ReadBoolSlice ReadString
  by_cases he : Getenv env key = ""
  · rw [he]
    decide
  · simp only [he, if_false, foldl_boolSliceStep, List.nil_append]

theorem mem_lowerText (s : String) (c : Char) (h : c ∈ s.data) :
    c.toLower ∈ (lowerText s).data :=
  List.mem_map_of_mem _ h

/-- C4 (as amended): `ReadBool` returns true when the raw text is `true`,
`TRUE`, `1` or `t`, and also when it is `T` or `True`; it returns false when
the raw text is `false`, `0` or `f`, and for every other raw text. -/
theorem C4_bool_aliases (env : Environ) (key raw : String) (hset : env key = some raw) :
    (raw ∈ ["true", "TRUE", "1", "t"] → ReadBool env key = true) ∧
    (raw ∈ ["T", "True"] → ReadBool env key = true) ∧
    (raw ∈ ["false", "0", "f"] → ReadBool env key = false) ∧
    (raw ∉ ["true", "TRUE", "1", "t", "T", "True"] → ReadBool env key = false) := by
  have hiff := ReadBool_true_iff env key
  rw [Getenv_of_some env key raw hset] at hiff
  refine ⟨fun h => hiff.2 ?_, fun h => hiff.2 ?_, fun h => ?_, fun h => ?_⟩
  · simp only [List.mem_cons, List.mem_singleton, List.not_mem_nil, or_false] at h ⊢
    tauto
  · simp only [List.mem_cons, List.mem_singleton, List.not_mem_nil, or_false] at h ⊢
    tauto
  · cases hb : ReadBool env key with
    | false => rfl
    | true =>
      have := hiff.1 hb
      simp only [List.mem_cons, List.mem_singleton, List.not_mem_nil, or_false] at h this
      rcases h with h | h | h <;> subst h <;> revert this <;> decide
  · cases hb : ReadBool env key with
    | false => rfl
    | true =>
      have := hiff.1 hb
      simp only [List.mem_cons, List.mem_singleton, List.not_mem_nil, or_false] at h this
      tauto

/-- Witness of C4 (as amended): the text `yes` is none of the accepted
spellings and reads as false. -/
theorem C4_bool_aliases_witness :
    Setenv emptyEnviron "FLAG" "yes" "FLAG" = some "yes" ∧
    "yes" ∉ ["true", "TRUE", "1", "t", "T", "True"] ∧
    ReadBool (Setenv emptyEnviron "FLAG" "yes") "FLAG" = false :=
  ⟨by decide, by decide,
    (C4_bool_aliases (Setenv emptyEnviron "FLAG" "yes") "FLAG" "yes" (by decide)).2.2.2
      (by decide)⟩

/-- Counterexample to C4 as stated: `True` is none of the seven listed
spellings, yet it does not read as false. -/
theorem C4_bool_aliases_counterexample :
    ¬ ("True" ∉ ["true", "TRUE", "1", "t", "false", "0", "f"] →
        ReadBool (Setenv emptyEnviron "FLAG" "True") "FLAG" = false) := by
  decide

/-- C5 (as amended): boolean parsing accepts three casings only. Of the raw
texts that equal `true` or `t` after lower-casing, exactly `true`, `TRUE`,
`True`, `t` and `T` read as true with `ReadBool`, the others read as false;
of the raw texts that equal `false` or `f` after lower-casing, exactly
`false`, `FALSE`, `False`, `f` and `F` are kept by `ReadBoolSlice` as a false
element, the others are dropped. -/
theorem C5_bool_casings (env : Environ) (key raw : String) (hset : env key = some raw) :
    (raw ∈ ["true", "TRUE", "True", "t", "T"] → ReadBool env key = true) ∧
    (raw ∈ ["false", "FALSE", "False", "f", "F"] → ReadBoolSlice env key = [false]) ∧
    ((lowerText raw = "true" ∨ lowerText raw = "t") →
      raw ∉ ["true", "TRUE", "True", "t", "T"] → ReadBool env key = false) ∧
    ((lowerText raw = "false" ∨ lowerText raw = "f") →
      raw ∉ ["false", "FALSE", "False", "f", "F"] → ReadBoolSlice env key = []) := by
  have hiff := ReadBool_true_iff env key
  have hsl := ReadBoolSlice_eq env key
  rw [Getenv_of_some env key raw hset] at hiff hsl
  refine ⟨fun h => hiff.2 ?_, fun h => ?_, fun hl h => ?_, fun hl h => ?_⟩
  · simp only [List.mem_cons, List.mem_singleton, List.not_mem_nil, or_false] at h ⊢
    tauto
  · rw [hsl]
    simp only [List.mem_cons, List.mem_singleton, List.not_mem_nil, or_false] at h
    rcases h with h | h | h | h | h <;> subst h <;> decide
  · cases hb : ReadBool env key with
    | false => rfl
    | true =>
      have := hiff.1 hb
      simp only [List.mem_cons, List.mem_singleton, List.not_mem_nil, or_false] at h this
      have h1 : raw = "1" := by tauto
      subst h1
      revert hl
      decide
  · have hcomma : ',' ∉ raw.data := by
      intro hc
      have hm := mem_lowerText raw ',' hc
      rcases hl with hl | hl <;> rw [hl] at hm <;> revert hm <;> decide
    rw [hsl, Split_of_not_mem ',' raw hcomma]
    cases hp : parseBoolResult raw with
    | none => simp [hp]
    | some b =>
      cases b with
      | true =>
        have := (parseBoolResult_true_iff raw).1 hp
        simp only [List.mem_cons, List.mem_singleton, List.not_mem_nil, or_false] at this
        rcases this with h' | h' | h' | h' | h' | h' <;> subst h' <;> revert hl <;> decide
      | false =>
        have := (parseBoolResult_false_iff raw).1 hp
        simp only [List.mem_cons, List.mem_singleton, List.not_mem_nil, or_false] at h this
        have h0 : raw = "0" := by tauto
        subst h0
        revert hl
        decide

/-- Witness of C5 (as amended): `False` is kept as a false element. -/
theorem C5_bool_casings_witness :
    Setenv emptyEnviron "FLAGS" "False" "FLAGS" = some "False" ∧
    "False" ∈ ["false", "FALSE", "False", "f", "F"] ∧
    ReadBoolSlice (Setenv emptyEnviron "FLAGS" "False") "FLAGS" = [false] :=
  ⟨by decide, by decide,
    (C5_bool_casings (Setenv emptyEnviron "FLAGS" "False") "FLAGS" "False" (by decide)).2.1
      (by decide)⟩

/-- Counterexample to C5 as stated: `tRuE` equals `true` after lower-casing,
yet `ReadBool` does not return true for it. -/
theorem C5_bool_casings_counterexample :
    ¬ ((lowerText "tRuE" = "true" ∨ lowerText "tRuE" = "t") →
        ReadBool (Setenv emptyEnviron "FLAG" "tRuE") "FLAG" = true) := by
  decide

/-! ### Sequences -/

theorem foldl_intSliceStep (segs : List String) (acc : List Int) :
    segs.foldl intSliceStep acc = acc ++ segs.filterMap decodeInt := by
  induction segs generalizing acc with
  | nil => simp
  | cons seg rest ih =>
    rw [List.foldl_cons, ih]
    have h := Atoi_spec seg
    unfold atoiResult okValue at h
    unfold intSliceStep
    by_cases herr : (Atoi seg).2 = none
    · rw [if_pos herr] at h
      simp [herr, List.filterMap_cons, ← h]
    · rw [if_neg herr] at h
      simp [herr, List.filterMap_cons, ← h]

theorem ReadIntSlice_eq (env : Environ) (key : String) :
    ReadIntSlice env key = (Split (Getenv env key) ',').filterMap decodeInt := by
  unfold ReadIntSlice ReadString
  by_cases he : Getenv env key = ""
  · rw [he]
    decide
  · simp only [he, if_false, foldl_intSliceStep, List.nil_append]

theorem not_mem_of_isDigits (c : Char) (hc : isDigitByte c = false) (ds : List Char)
    (hd : ds.all isDigitByte = true) : c ∉ ds := by
  intro hmem
  have := List.all_eq_true.1 hd c hmem
  rw [hc] at this
  exact Bool.false_ne_true this

theorem comma_not_mem_formatInt (v : Int) : ',' ∉ (formatInt v).data := by
  obtain ⟨hd, _⟩ := formatNat_spec v.natAbs
  simp only [isDigits, Bool.and_eq_true] at hd
  have hn := not_mem_of_isDigits ',' (by decide) _ hd.2
  unfold formatInt
  split
  · rw [String.data_append]
    intro hmem
    rcases List.mem_append.1 hmem with h | h
    · revert h
      decide
    · exact hn h
  · exact hn

theorem filterMap_decodeInt_formatInt (L : List Int)
    (hL : ∀ v ∈ L, -2 ^ 63 ≤ v ∧ v < 2 ^ 63) :
    (L.map formatInt).filterMap decodeInt = L := by
  induction L with
  | nil => rfl
  | cons v rest ih =>
    have hv := hL v (by simp)
    rw [List.map_cons, List.filterMap_cons, decodeInt_formatInt v hv.1 hv.2,
      ih (fun w hw => hL w (List.mem_cons_of_mem _ hw))]

/-- C6: integer sequence round trip. For every list `L` of Go ints, if the
raw text of the variable is the base-10 encodings of the elements of `L`
joined with `,`, then `ReadIntSlice` returns exactly `L`: same length, same
values, same order. -/
theorem C6_int_slice_round_trip (env : Environ) (key raw : String) (L : List Int)
    (hL : ∀ v ∈ L, -2 ^ 63 ≤ v ∧ v < 2 ^ 63) (hset : env key = some raw)
    (henc : raw = Join (L.map formatInt) ',') :
    ReadIntSlice env key = L := by
  rw [ReadIntSlice_eq, Getenv_of_some env key raw hset, henc]
  cases L with
  | nil => decide
  | cons v rest =>
    rw [Split_Join ',' _ (by simp)]
    · exact filterMap_decodeInt_formatInt _ hL
    · intro s hs
      obtain ⟨w, _, hw⟩ := List.mem_map.1 hs
      rw [← hw]
      exact comma_not_mem_formatInt w

/-- Witness of C6: three integers, the extreme values of a Go `int` among
them. -/
theorem C6_int_slice_round_trip_witness :
    (∀ v ∈ [9223372036854775807, 0, -9223372036854775808],
      -2 ^ 63 ≤ v ∧ v < (2 : Int) ^ 63) ∧
    "9223372036854775807,0,-9223372036854775808" =
      Join ([9223372036854775807, 0, -9223372036854775808].map formatInt) ',' ∧
    ReadIntSlice (Setenv emptyEnviron "NUMS" "9223372036854775807,0,-9223372036854775808")
      "NUMS" = [9223372036854775807, 0, -9223372036854775808] :=
  ⟨by decide, by decide,
    C6_int_slice_round_trip
      (Setenv emptyEnviron "NUMS" "9223372036854775807,0,-9223372036854775808") "NUMS"
      "9223372036854775807,0,-9223372036854775808"
      [9223372036854775807, 0, -9223372036854775808] (by decide) (by decide) (by decide)⟩

/-- C7 (as amended): text sequence round trip. For every list `L` of strings
none of which contains `,`, other than the one-element list holding the empty
string, if the raw text of the variable is the elements of `L` joined with
`,`, then `ReadStringSlice` returns exactly `L`, in original order with
length preserved. -/
theorem C7_string_slice_round_trip (env : Environ) (key raw : String) (L : List String)
    (hL : ∀ s ∈ L, ',' ∉ s.data) (hne : L ≠ [""]) (hset : env key = some raw)
    (henc : raw = Join L ',') :
    ReadStringSlice env key = L := by
  unfold ReadStringSlice ReadString
  rw [Getenv_of_some env key raw hset]
  cases L with
  | nil => simp [henc, Join]
  | cons a rest =>
    have hsplit : Split raw ',' = a :: rest := by
      rw [henc]
      exact Split_Join ',' _ (by simp) hL
    by_cases he : raw = ""
    · rw [he, Split_empty] at hsplit
      exact absurd hsplit.symm hne
    · simp only [he, if_false]
      exact hsplit

/-- Witness of C7 (as amended): empty elements are kept beside others. -/
theorem C7_string_slice_round_trip_witness :
    (∀ s ∈ ["", " a b ", ""], ',' ∉ s.data) ∧ ["", " a b ", ""] ≠ [""] ∧
    ", a b ," = Join ["", " a b ", ""] ',' ∧
    ReadStringSlice (Setenv emptyEnviron "NAMES" ", a b ,") "NAMES" = ["", " a b ", ""] :=
  ⟨by decide, by decide, by decide,
    C7_string_slice_round_trip (Setenv emptyEnviron "NAMES" ", a b ,") "NAMES" ", a b ,"
      ["", " a b ", ""] (by decide) (by decide) (by decide) (by decide)⟩

/-- Counterexample to C7 as stated: the one-element list holding the empty
string joins to the empty text, which reads as the empty sequence. -/
theorem C7_string_slice_round_trip_counterexample :
    ¬ ((∀ s ∈ [""], ',' ∉ s.data) →
        ReadStringSlice (Setenv emptyEnviron "NAMES" (Join [""] ',')) "NAMES" = [""]) := by
  decide

/-- C8: sequence partial failure. For every raw text, non-empty in
particular, `ReadIntSlice` returns exactly the integers parsed from those `,`-separated
segments that are valid base-10 integers, in their original relative order,
every segment that fails to parse being dropped (not replaced by 0); in
particular `1,x,3` yields `[1, 3]`. -/
theorem C8_int_slice_drops_failures (env : Environ) (key raw : String)
    (hset : env key = some raw) :
    ReadIntSlice env key = (Split raw ',').filterMap decodeInt ∧
    ReadIntSlice (Setenv emptyEnviron "NUMS" "1,x,3") "NUMS" = [1, 3] := by
  refine ⟨?_, by decide⟩
  rw [ReadIntSlice_eq, Getenv_of_some env key raw hset]

/-- Witness of C8: empty, non-numeric and out-of-range segments are dropped,
the others keep their order. -/
theorem C8_int_slice_drops_failures_witness :
    Setenv emptyEnviron "NUMS" "7,,+8,1e3,-9,99999999999999999999" "NUMS" =
      some "7,,+8,1e3,-9,99999999999999999999" ∧
    "7,,+8,1e3,-9,99999999999999999999" ≠ "" ∧
    ReadIntSlice (Setenv emptyEnviron "NUMS" "7,,+8,1e3,-9,99999999999999999999") "NUMS" =
      [7, 8, -9] :=
  ⟨by decide, by decide,
    ((C8_int_slice_drops_failures
      (Setenv emptyEnviron "NUMS" "7,,+8,1e3,-9,99999999999999999999") "NUMS"
      "7,,+8,1e3,-9,99999999999999999999" (by decide)).1).trans (by decide)⟩

/-! ### Mappings -/

theorem Split_pair (k v : String) (hk : '=' ∉ k.data) (hv : '=' ∉ v.data) :
    Split (k ++ "=" ++ v) '=' = [k, v] := by
  have hd : (k ++ "=" ++ v).data = k.data ++ '=' :: v.data := by
    have hs : ("=" : String).data = ['='] := rfl
    simp only [String.data_append, hs, List.append_assoc, List.singleton_append]
  unfold Split
  rw [hd, splitList_append_sep '=' _ _ hk, splitList_of_not_mem '=' _ hv]
  rfl

theorem stringMapStep_of_not_mem (m : GoMap String) (seg : String) (h : '=' ∉ seg.data) :
    stringMapStep m seg = m := by
  simp [stringMapStep, Split_of_not_mem '=' seg h]

theorem intMapStep_of_not_mem (m : GoMap Int) (seg : String) (h : '=' ∉ seg.data) :
    intMapStep m seg = m := by
  simp [intMapStep, Split_of_not_mem '=' seg h]

theorem boolMapStep_of_not_mem (m : GoMap Bool) (seg : String) (h : '=' ∉ seg.data) :
    boolMapStep m seg = m := by
  simp [boolMapStep, Split_of_not_mem '=' seg h]

theorem floatMapStep_of_not_mem (parseFloat : String → Float × Option NumError)
    (m : GoMap Float) (seg : String) (h : '=' ∉ seg.data) :
    floatMapStep parseFloat m seg = m := by
  simp [floatMapStep, Split_of_not_mem '=' seg h]

theorem stringMapStep_pair (m : GoMap String) (k v : String) (hk : '=' ∉ k.data)
    (hv : '=' ∉ v.data) : stringMapStep m (k ++ "=" ++ v) = m.set k v := by
  simp [stringMapStep, Split_pair k v hk hv]

theorem ReadStringMap_eq (env : Environ) (key : String) :
    ReadStringMap env key = (Split (Getenv env key) ',').foldl stringMapStep GoMap.empty := by
  unfold ReadStringMap ReadString
  by_cases he : Getenv env key = ""
  · rw [he, Split_empty]
    simp [stringMapStep_of_not_mem]
  · simp only [he, if_false]

theorem ReadIntMap_eq (env : Environ) (key : String) :
    ReadIntMap env key = (Split (Getenv env key) ',').foldl intMapStep GoMap.empty := by
  unfold ReadIntMap ReadString
  by_cases he : Getenv env key = ""
  · rw [he, Split_empty]
    simp [intMapStep_of_not_mem]
  · simp only [he, if_false]

theorem ReadBoolMap_eq (env : Environ) (key : String) :
    ReadBoolMap env key = (Split (Getenv env key) ',').foldl boolMapStep GoMap.empty := by
  unfold ReadBoolMap ReadString
  by_cases he : Getenv env key = ""
  · rw [he, Split_empty]
    simp [boolMapStep_of_not_mem]
  · simp only [he, if_false]

theorem ReadFloatMap_eq (parseFloat : String → Float × Option NumError) (env : Environ)
    (key : String) :
    ReadFloatMap parseFloat env key =
      (Split (Getenv env key) ',').foldl (floatMapStep parseFloat) GoMap.empty := by
  unfold ReadFloatMap ReadString
  by_cases he : Getenv env key = ""
  · rw [he, Split_empty]
    simp [floatMapStep_of_not_mem]
  · simp only [he, if_false]

theorem foldl_filter_of_skip {α β : Type} (f : β → α → β) (p : α → Bool)
    (h : ∀ b a, p a = false → f b a = b) (l : List α) (b : β) :
    l.foldl f b = (l.filter p).foldl f b := by
  induction l generalizing b with
  | nil => rfl
  | cons a rest ih =>
    by_cases hp : p a = true
    · rw [List.filter_cons_of_pos hp, List.foldl_cons, List.foldl_cons, ih]
    · rw [List.filter_cons_of_neg hp, List.foldl_cons, h b a (by simpa using hp), ih]

theorem foldl_set_of_not_mem {V : Type} (pairs : List (String × V)) (m : GoMap V)
    (k : String) (hk : k ∉ pairs.map Prod.fst) :
    (pairs.foldl (fun acc p => acc.set p.1 p.2) m) k = m k := by
  induction pairs generalizing m with
  | nil => rfl
  | cons p rest ih =>
    simp only [List.map_cons, List.mem_cons, not_or] at hk
    rw [List.foldl_cons, ih _ hk.2]
    simp [GoMap.set, hk.1]

theorem foldl_set_of_mem {V : Type} (pairs : List (String × V)) (m : GoMap V)
    (hnodup : (pairs.map Prod.fst).Nodup) (p : String × V) (hp : p ∈ pairs) :
    (pairs.foldl (fun acc q => acc.set q.1 q.2) m) p.1 = some p.2 := by
  induction pairs generalizing m with
  | nil => simp at hp
  | cons q rest ih =>
    simp only [List.map_cons, List.nodup_cons] at hnodup
    rw [List.foldl_cons]
    rcases List.mem_cons.1 hp with h | h
    · subst h
      rw [foldl_set_of_not_mem rest _ p.1 hnodup.1]
      simp [GoMap.set]
    · exact ih _ hnodup.2 h

theorem foldl_stringMapStep_pairs (pairs : List (String × String)) (m : GoMap String)
    (hclean : ∀ p ∈ pairs, '=' ∉ p.1.data ∧ '=' ∉ p.2.data) :
    (pairs.map (fun p => p.1 ++ "=" ++ p.2)).foldl stringMapStep m =
      pairs.foldl (fun acc p => acc.set p.1 p.2) m := by
  induction pairs generalizing m with
  | nil => rfl
  | cons p rest ih =>
    have hp := hclean p (by simp)
    rw [List.map_cons, List.foldl_cons, List.foldl_cons, stringMapStep_pair m _ _ hp.1 hp.2,
      ih _ (fun q hq => hclean q (List.mem_cons_of_mem _ hq))]

/-- C9: mapping basic. For every non-empty list of (key, value) string pairs
with pairwise distinct keys, where no key or value contains `,` or `=`, if
the raw text is the pairs written as key=value and joined with `,`, then
`ReadStringMap` returns the mapping that sends each key to its value and has
no other keys; in particular `foo=bar,baz=qux` yields
`{"foo": "bar", "baz": "qux"}`. -/
theorem C9_string_map_basic (env : Environ) (key raw : String)
    (pairs : List (String × String)) (hne : pairs ≠ [])
    (hkeys : (pairs.map Prod.fst).Nodup)
    (hclean : ∀ p ∈ pairs,
      ',' ∉ p.1.data ∧ '=' ∉ p.1.data ∧ ',' ∉ p.2.data ∧ '=' ∉ p.2.data)
    (hset : env key = some raw)
    (henc : raw = Join (pairs.map (fun p => p.1 ++ "=" ++ p.2)) ',') :
    (∀ p ∈ pairs, ReadStringMap env key p.1 = some p.2) ∧
    (∀ k, (ReadStringMap env key).hasKey k → k ∈ pairs.map Prod.fst) ∧
    ReadStringMap (Setenv emptyEnviron "FOO" "foo=bar,baz=qux") "FOO" =
      (GoMap.empty.set "foo" "bar").set "baz" "qux" := by
  have hsplit : Split raw ',' = pairs.map (fun p => p.1 ++ "=" ++ p.2) := by
    rw [henc]
    apply Split_Join ',' _ (by simpa using hne)
    intro s hs
    obtain ⟨p, hp, hps⟩ := List.mem_map.1 hs
    obtain ⟨h1, _, h3, _⟩ := hclean p hp
    have hs' : ("=" : String).data = ['='] := rfl
    rw [← hps]
    simp only [String.data_append, hs', List.mem_append, List.mem_singleton, not_or]
    exact ⟨⟨h1, by decide⟩, h3⟩
  have hfold : ReadStringMap env key = pairs.foldl (fun acc p => acc.set p.1 p.2) GoMap.empty := by
    rw [ReadStringMap_eq, Getenv_of_some env key raw hset, hsplit]
    exact foldl_stringMapStep_pairs pairs _ (fun p hp => ⟨(hclean p hp).2.1, (hclean p hp).2.2.2⟩)
  refine ⟨fun p hp => ?_, fun k hk => ?_, rfl⟩
  · rw [hfold]
    exact foldl_set_of_mem pairs _ hkeys p hp
  · by_contra hmem
    rw [hfold] at hk
    exact hk (foldl_set_of_not_mem pairs _ k hmem)

/-- Witness of C9: two pairs, one with an empty value and one with an empty
key. -/
theorem C9_string_map_basic_witness :
    [("host", ""), ("", "x y")] ≠ [] ∧
    ([("host", ""), ("", "x y")].map Prod.fst).Nodup ∧
    (∀ p ∈ [("host", ""), ("", "x y")],
      ',' ∉ p.1.data ∧ '=' ∉ p.1.data ∧ ',' ∉ p.2.data ∧ '=' ∉ p.2.data) ∧
    "host=,=x y" = Join ([("host", ""), ("", "x y")].map (fun p => p.1 ++ "=" ++ p.2)) ',' ∧
    ReadStringMap (Setenv emptyEnviron "CONF" "host=,=x y") "CONF" "host" = some "" ∧
    ReadStringMap (Setenv emptyEnviron "CONF" "host=,=x y") "CONF" "" = some "x y" :=
  have h := C9_string_map_basic (Setenv emptyEnviron "CONF" "host=,=x y") "CONF" "host=,=x y"
    [("host", ""), ("", "x y")] (by decide) (by decide) (by decide) (by decide) (by decide)
  ⟨by decide, by decide, by decide, by decide, h.1 ("host", "") (by decide),
    h.1 ("", "x y") (by decide)⟩

/-- C10: mapping malformed-pair drop. For every raw text, a `,`-separated
segment that contains no `=` contributes no key to the result of `ReadIntMap`
(or of any `Read*Map`) and does not affect the entries produced by the other
segments: the result is the one computed from the segments that contain `=`
alone. In particular `foo=1,bad,baz=2` read with `ReadIntMap` yields exactly
`{"foo": 1, "baz": 2}`. -/
theorem C10_map_malformed_pair_dropped (parseFloat : String → Float × Option NumError)
    (env : Environ) (key : String) :
    ReadIntMap env key =
      ((Split (Getenv env key) ',').filter (fun seg => decide ('=' ∈ seg.data))).foldl
        intMapStep GoMap.empty ∧
    ReadStringMap env key =
      ((Split (Getenv env key) ',').filter (fun seg => decide ('=' ∈ seg.data))).foldl
        stringMapStep GoMap.empty ∧
    ReadBoolMap env key =
      ((Split (Getenv env key) ',').filter (fun seg => decide ('=' ∈ seg.data))).foldl
        boolMapStep GoMap.empty ∧
    ReadFloatMap parseFloat env key =
      ((Split (Getenv env key) ',').filter (fun seg => decide ('=' ∈ seg.data))).foldl
        (floatMapStep parseFloat) GoMap.empty ∧
    ReadIntMap (Setenv emptyEnviron "FOO" "foo=1,bad,baz=2") "FOO" =
      (GoMap.empty.set "foo" 1).set "baz" 2 := by
  refine ⟨?_, ?_, ?_, ?_, rfl⟩
  · rw [ReadIntMap_eq]
    exact foldl_filter_of_skip _ _
      (fun m seg h => intMapStep_of_not_mem m seg (by simpa using h)) _ _
  · rw [ReadStringMap_eq]
    exact foldl_filter_of_skip _ _
      (fun m seg h => stringMapStep_of_not_mem m seg (by simpa using h)) _ _
  · rw [ReadBoolMap_eq]
    exact foldl_filter_of_skip _ _
      (fun m seg h => boolMapStep_of_not_mem m seg (by simpa using h)) _ _
  · rw [ReadFloatMap_eq]
    exact foldl_filter_of_skip _ _
      (fun m seg h => floatMapStep_of_not_mem parseFloat m seg (by simpa using h)) _ _

/-! ### Splitting, counted -/

theorem splitList_length (sep : Char) (l : List Char) :
    (splitList sep l).length = l.count sep + 1 := by
  induction l with
  | nil => rfl
  | cons c cs ih =>
    have hne := splitList_ne_nil sep cs
    by_cases hc : c = sep
    · subst hc
      simp [splitList, ih]
    · have hcs : (splitList sep cs).tail.length + 1 = (splitList sep cs).length := by
        cases h : splitList sep cs with
        | nil => exact absurd h hne
        | cons a b => simp
      simp only [splitList, hc, if_false, List.length_cons, hcs, ih]
      rw [List.count_cons_of_ne (Ne.symm hc)]

theorem splitList_of_count_one (sep : Char) (l : List Char) (h : l.count sep = 1) :
    splitList sep l =
      [l.takeWhile (fun c => c != sep), (l.dropWhile (fun c => c != sep)).tail] := by
  induction l with
  | nil => simp at h
  | cons c cs ih =>
    by_cases hc : c = sep
    · subst hc
      have h0 : cs.count c = 0 := by simpa using h
      have hnm : c ∉ cs := List.count_eq_zero.1 h0
      simp [splitList, splitList_of_not_mem c cs hnm]
    · rw [List.count_cons_of_ne (Ne.symm hc)] at h
      simp [splitList, hc, ih h]

theorem not_sep_mem_of_mem_splitList (sep : Char) (l x : List Char)
    (hx : x ∈ splitList sep l) : sep ∉ x := by
  induction l generalizing x with
  | nil =>
    simp only [splitList, List.mem_singleton] at hx
    simp [hx]
  | cons c cs ih =>
    have hne := splitList_ne_nil sep cs
    cases hs : splitList sep cs with
    | nil => exact absurd hs hne
    | cons a b =>
      rw [hs] at ih
      by_cases hc : c = sep
      · simp only [splitList, hc, if_true, hs, List.mem_cons] at hx
        rcases hx with hx | hx | hx
        · simp [hx]
        · exact ih x (by simp [hx])
        · exact ih x (by simp [hx])
      · simp only [splitList, hc, if_false, hs, List.headD_cons, List.tail_cons,
          List.mem_cons] at hx
        rcases hx with hx | hx
        · rw [hx]
          intro hmem
          rcases List.mem_cons.1 hmem with h | h
          · exact hc h.symm
          · exact ih a (by simp) h
        · exact ih x (by simp [hx])

theorem Split_length (s : String) (sep : Char) :
    (Split s sep).length = countChar s sep + 1 := by
  simp [Split, countChar, splitList_length]

theorem Split_of_count_one (seg : String) (h : countChar seg '=' = 1) :
    Split seg '=' = [keyPart seg, valuePart seg] := by
  unfold Split keyPart valuePart
  rw [splitList_of_count_one '=' seg.data h]
  rfl

theorem stringMapStep_eq (m : GoMap String) (seg : String) :
    stringMapStep m seg = m.store (decodePair seg) := by
  unfold stringMapStep GoMap.store decodePair
  by_cases h : countChar seg '=' = 1
  · simp [h, Split_of_count_one seg h]
  · have hl : (Split seg '=').length ≠ 2 := by
      rw [Split_length]
      omega
    simp [h, hl]

theorem intMapStep_eq (m : GoMap Int) (seg : String) :
    intMapStep m seg = m.store (decodeIntPair seg) := by
  unfold intMapStep GoMap.store decodeIntPair decodePair
  by_cases h : countChar seg '=' = 1
  · have ha := Atoi_spec (valuePart seg)
    unfold atoiResult okValue at ha
    simp only [h, if_true, Split_of_count_one seg h, List.length_cons, List.length_nil]
    by_cases herr : (Atoi (valuePart seg)).2 = none
    · rw [if_pos herr] at ha
      simp [herr, ← ha]
    · rw [if_neg herr] at ha
      simp [herr, ← ha]
  · have hl : (Split seg '=').length ≠ 2 := by
      rw [Split_length]
      omega
    simp [h, hl]

theorem boolMapStep_eq (m : GoMap Bool) (seg : String) :
    boolMapStep m seg = m.store (decodeBoolPair seg) := by
  unfold boolMapStep GoMap.store decodeBoolPair decodePair
  by_cases h : countChar seg '=' = 1
  · simp only [h, if_true, Split_of_count_one seg h, List.length_cons, List.length_nil]
    unfold parseBoolResult okValue
    by_cases herr : (ParseBool (valuePart seg)).2 = none <;> simp [herr]
  · have hl : (Split seg '=').length ≠ 2 := by
      rw [Split_length]
      omega
    simp [h, hl]

theorem foldl_step_eq_foldl_set {V : Type} (step : GoMap V → String → GoMap V)
    (dec : String → Option (String × V))
    (hstep : ∀ m seg, step m seg = m.store (dec seg))
    (segs : List String) (m : GoMap V) :
    segs.foldl step m = (segs.filterMap dec).foldl (fun acc p => acc.set p.1 p.2) m := by
  induction segs generalizing m with
  | nil => rfl
  | cons seg rest ih =>
    rw [List.foldl_cons, ih, hstep]
    cases hd : dec seg with
    | none => simp [List.filterMap_cons, hd, GoMap.store]
    | some p => simp [List.filterMap_cons, hd, GoMap.store]

theorem foldl_set_lookup {V : Type} (pairs : List (String × V)) (m : GoMap V) (k : String) :
    (pairs.foldl (fun acc p => acc.set p.1 p.2) m) k =
      match lastValue pairs k with
      | some v => some v
      | none => m k := by
  induction pairs generalizing m with
  | nil => rfl
  | cons p rest ih =>
    rw [List.foldl_cons, ih]
    unfold lastValue
    rw [List.reverse_cons, List.find?_append]
    cases hf : rest.reverse.find? (fun q => decide (q.1 = k)) with
    | some q => simp
    | none =>
      by_cases hk : p.1 = k
      · simp [GoMap.set, hk, List.find?_cons]
      · have hk' : ¬ k = p.1 := fun e => hk e.symm
        simp [GoMap.set, hk, hk', List.find?_cons]

theorem lastValue_isSome_iff {V : Type} (pairs : List (String × V)) (k : String) :
    lastValue pairs k ≠ none ↔ k ∈ pairs.map Prod.fst := by
  unfold lastValue
  constructor
  · intro h
    cases hf : pairs.reverse.find? (fun q => decide (q.1 = k)) with
    | none => simp [hf] at h
    | some q =>
      have h1 := List.find?_some hf
      have h2 := List.mem_of_find?_eq_some hf
      simp only [decide_eq_true_eq] at h1
      rw [List.mem_reverse] at h2
      exact List.mem_map.2 ⟨q, h2, h1⟩
  · intro h
    obtain ⟨q, hq, hqk⟩ := List.mem_map.1 h
    cases hf : pairs.reverse.find? (fun q => decide (q.1 = k)) with
    | none =>
      have := List.find?_eq_none.1 hf q (List.mem_reverse.2 hq)
      simp [hqk] at this
    | some r => simp

theorem ReadStringMap_lookup (env : Environ) (key k : String) :
    ReadStringMap env key k =
      lastValue ((Split (Getenv env key) ',').filterMap decodePair) k := by
  rw [ReadStringMap_eq, foldl_step_eq_foldl_set stringMapStep decodePair stringMapStep_eq,
    foldl_set_lookup]
  cases lastValue ((Split (Getenv env key) ',').filterMap decodePair) k <;> rfl

theorem ReadIntMap_lookup (env : Environ) (key k : String) :
    ReadIntMap env key k =
      lastValue ((Split (Getenv env key) ',').filterMap decodeIntPair) k := by
  rw [ReadIntMap_eq, foldl_step_eq_foldl_set intMapStep decodeIntPair intMapStep_eq,
    foldl_set_lookup]
  cases lastValue ((Split (Getenv env key) ',').filterMap decodeIntPair) k <;> rfl

theorem ReadBoolMap_lookup (env : Environ) (key k : String) :
    ReadBoolMap env key k =
      lastValue ((Split (Getenv env key) ',').filterMap decodeBoolPair) k := by
  rw [ReadBoolMap_eq, foldl_step_eq_foldl_set boolMapStep decodeBoolPair boolMapStep_eq,
    foldl_set_lookup]
  cases lastValue ((Split (Getenv env key) ',').filterMap decodeBoolPair) k <;> rfl

theorem lastValue_some_mem {V : Type} (pairs : List (String × V)) (k : String) (v : V)
    (h : lastValue pairs k = some v) : (k, v) ∈ pairs := by
  unfold lastValue at h
  cases hf : pairs.reverse.find? (fun q => decide (q.1 = k)) with
  | none => simp [hf] at h
  | some q =>
    have h1 := List.find?_some hf
    have h2 := List.mem_of_find?_eq_some hf
    simp only [decide_eq_true_eq] at h1
    rw [List.mem_reverse] at h2
    simp only [hf, Option.map_some', Option.some.injEq] at h
    have : q = (k, v) := Prod.ext h1 h
    rw [← this]
    exact h2

theorem lastValue_append_singleton {V : Type} (pairs : List (String × V)) (k : String)
    (v : V) : lastValue (pairs ++ [(k, v)]) k = some v := by
  simp [lastValue, List.find?_cons]

theorem decodePair_pair (k v : String) (hk : '=' ∉ k.data) (hv : '=' ∉ v.data) :
    decodePair (k ++ "=" ++ v) = some (k, v) := by
  have hs := Split_pair k v hk hv
  have hl := Split_length (k ++ "=" ++ v) '='
  rw [hs] at hl
  have hc : countChar (k ++ "=" ++ v) '=' = 1 := by
    simp only [List.length_cons, List.length_nil] at hl
    omega
  have h2 := Split_of_count_one _ hc
  rw [hs] at h2
  simp only [List.cons.injEq, and_true] at h2
  unfold decodePair
  rw [if_pos hc, ← h2.1, ← h2.2]

theorem decodePair_of_eq_in_value (k v : String) (hv : '=' ∈ v.data) :
    decodePair (k ++ "=" ++ v) = none := by
  have hs : ("=" : String).data = ['='] := rfl
  have hpos : 0 < v.data.count '=' := List.count_pos_iff.2 hv
  have hc : countChar (k ++ "=" ++ v) '=' ≠ 1 := by
    simp only [countChar, String.data_append, hs, List.count_append, List.count_singleton_self]
    omega
  unfold decodePair
  rw [if_neg hc]

theorem comma_not_mem_pair (k v : String) (hk : ',' ∉ k.data) (hv : ',' ∉ v.data) :
    ',' ∉ (k ++ "=" ++ v).data := by
  have hs : ("=" : String).data = ['='] := rfl
  simp only [String.data_append, hs, List.mem_append, List.mem_singleton, not_or]
  exact ⟨⟨hk, by decide⟩, hv⟩

theorem Split_Join_append_singleton (pre : List String) (seg : String)
    (hpre : ∀ s ∈ pre, ',' ∉ s.data) (hseg : ',' ∉ seg.data) :
    Split (Join (pre ++ [seg]) ',') ',' = pre ++ [seg] := by
  apply Split_Join ',' _ (by simp)
  intro s hs
  rcases List.mem_append.1 hs with h | h
  · exact hpre s h
  · rw [List.mem_singleton.1 h]
    exact hseg

theorem keyPart_no_eq (seg : String) : '=' ∉ (keyPart seg).data := by
  unfold keyPart
  intro h
  have := List.mem_takeWhile_imp h
  simp at this

theorem keyPart_subset (seg : String) (c : Char) (h : c ∈ (keyPart seg).data) :
    c ∈ seg.data :=
  (List.takeWhile_sublist _).subset h

theorem comma_not_mem_of_mem_Split (s seg : String) (h : seg ∈ Split s ',') :
    ',' ∉ seg.data := by
  unfold Split at h
  obtain ⟨x, hx, hxs⟩ := List.mem_map.1 h
  rw [← hxs]
  exact not_sep_mem_of_mem_splitList ',' s.data x hx

theorem mem_filterMap_decodePair (segs : List String) (k v : String)
    (h : (k, v) ∈ segs.filterMap decodePair) :
    ∃ seg ∈ segs, countChar seg '=' = 1 ∧ keyPart seg = k ∧ valuePart seg = v := by
  obtain ⟨seg, hseg, hd⟩ := List.mem_filterMap.1 h
  refine ⟨seg, hseg, ?_⟩
  unfold decodePair at hd
  by_cases hc : countChar seg '=' = 1
  · rw [if_pos hc] at hd
    simp only [Option.some.injEq, Prod.mk.injEq] at hd
    exact ⟨hc, hd.1, hd.2⟩
  · rw [if_neg hc] at hd
    exact absurd hd (by simp)

theorem decodeIntPair_some (seg k : String) (n : Int) (h : decodeIntPair seg = some (k, n)) :
    ∃ v, decodePair seg = some (k, v) ∧ decodeInt v = some n := by
  unfold decodeIntPair at h
  cases hd : decodePair seg with
  | none => simp [hd] at h
  | some p =>
    obtain ⟨k', v⟩ := p
    rw [hd] at h
    cases hv : decodeInt v with
    | none => simp [hv] at h
    | some n' =>
      simp only [hv, Option.some.injEq, Prod.mk.injEq] at h
      exact ⟨v, by rw [h.1], by rw [hv, h.2]⟩

theorem ReadStringMap_last_pair (env : Environ) (key raw : String) (pre : List String)
    (k v : String) (hset : env key = some raw)
    (henc : raw = Join (pre ++ [k ++ "=" ++ v]) ',')
    (hpre : ∀ s ∈ pre, ',' ∉ s.data)
    (hk : ',' ∉ k.data ∧ '=' ∉ k.data) (hv : ',' ∉ v.data ∧ '=' ∉ v.data) :
    ReadStringMap env key k = some v := by
  rw [ReadStringMap_lookup, Getenv_of_some env key raw hset, henc,
    Split_Join_append_singleton pre _ hpre (comma_not_mem_pair k v hk.1 hv.1),
    List.filterMap_append]
  simp only [List.filterMap_cons, List.filterMap_nil, decodePair_pair k v hk.2 hv.2]
  exact lastValue_append_singleton _ k v

/-- C12 (as amended): mapping pairs are split on every `=` and kept only when
that gives exactly two parts. For every segment of the form k=v where k
contains no `=`, standing last in the raw text, `ReadStringMap` maps k to v
when v contains no `=`, and drops the segment when v itself contains `=`
(the result is the one of the segments before it); in particular the raw text
`a=b=c` yields the empty mapping. -/
theorem C12_pair_split_on_every_eq (env : Environ) (key raw : String) (pre : List String)
    (k v : String) (hset : env key = some raw)
    (henc : raw = Join (pre ++ [k ++ "=" ++ v]) ',')
    (hpre : ∀ s ∈ pre, ',' ∉ s.data)
    (hk : ',' ∉ k.data ∧ '=' ∉ k.data) (hv : ',' ∉ v.data) :
    ('=' ∉ v.data → ReadStringMap env key k = some v) ∧
    ('=' ∈ v.data →
      ∀ k', ReadStringMap env key k' = lastValue (pre.filterMap decodePair) k') ∧
    ReadStringMap (Setenv emptyEnviron "FOO" "a=b=c") "FOO" = GoMap.empty := by
  refine ⟨fun h => ?_, fun h k' => ?_, rfl⟩
  · exact ReadStringMap_last_pair env key raw pre k v hset henc hpre hk ⟨hv, h⟩
  · rw [ReadStringMap_lookup, Getenv_of_some env key raw hset, henc,
      Split_Join_append_singleton pre _ hpre (comma_not_mem_pair k v hk.1 hv),
      List.filterMap_append]
    simp only [List.filterMap_cons, List.filterMap_nil, decodePair_of_eq_in_value k v h,
      List.append_nil]

/-- Witness of C12 (as amended): after `x=1`, the segment `a=b=c` is dropped
and the result is the one of `x=1` alone. -/
theorem C12_pair_split_on_every_eq_witness :
    "x=1,a=b=c" = Join (["x=1"] ++ ["a" ++ "=" ++ "b=c"]) ',' ∧ '=' ∈ "b=c".data ∧
    ReadStringMap (Setenv emptyEnviron "FOO" "x=1,a=b=c") "FOO" "a" = none ∧
    ReadStringMap (Setenv emptyEnviron "FOO" "x=1,a=b=c") "FOO" "x" = some "1" :=
  have h := (C12_pair_split_on_every_eq (Setenv emptyEnviron "FOO" "x=1,a=b=c") "FOO"
    "x=1,a=b=c" ["x=1"] "a" "b=c" (by decide) (by decide) (by decide) (by decide)
    (by decide)).2.1 (by decide)
  ⟨by decide, by decide, (h "a").trans (by decide), (h "x").trans (by decide)⟩

/-- Counterexample to C12 as stated: in `a=b=c` the key `a` is not mapped to
`b=c`. -/
theorem C12_pair_split_on_every_eq_counterexample :
    ¬ (ReadStringMap (Setenv emptyEnviron "FOO" "a=b=c") "FOO" "a" = some "b=c") := by
  decide

theorem stringMapStep_of_count_ne_one (m : GoMap String) (seg : String)
    (h : countChar seg '=' ≠ 1) : stringMapStep m seg = m := by
  rw [stringMapStep_eq]
  unfold decodePair
  rw [if_neg h]
  rfl

/-- C13 (as amended): exact-two-parts-or-drop. For every raw text, a
`,`-separated segment contributes an entry to `ReadStringMap` only if it
contains exactly one `=`: the result is the one computed from the segments
with exactly one `=` alone, and every key of the result is the key part of
such a segment. A segment with two or more `=` (such as `a=b=c`) is dropped
entirely, and its key is absent from the result unless a segment with exactly
one `=` has the same key part; `a=b=c` alone yields the empty mapping. -/
theorem C13_exactly_one_eq_or_dropped (env : Environ) (key : String) :
    ReadStringMap env key =
      ((Split (Getenv env key) ',').filter
        (fun seg => decide (countChar seg '=' = 1))).foldl stringMapStep GoMap.empty ∧
    (∀ k, (ReadStringMap env key).hasKey k →
      ∃ seg ∈ Split (Getenv env key) ',', countChar seg '=' = 1 ∧ keyPart seg = k) ∧
    (∀ seg ∈ Split (Getenv env key) ',', 2 ≤ countChar seg '=' →
      (∀ other ∈ Split (Getenv env key) ',',
        countChar other '=' = 1 → keyPart other ≠ keyPart seg) →
      ReadStringMap env key (keyPart seg) = none) ∧
    ReadStringMap (Setenv emptyEnviron "FOO" "a=b=c") "FOO" = GoMap.empty := by
  have hkeys : ∀ k, (ReadStringMap env key).hasKey k →
      ∃ seg ∈ Split (Getenv env key) ',', countChar seg '=' = 1 ∧ keyPart seg = k := by
    intro k hk
    unfold GoMap.hasKey at hk
    rw [ReadStringMap_lookup] at hk
    cases hl : lastValue ((Split (Getenv env key) ',').filterMap decodePair) k with
    | none => exact absurd hl hk
    | some v =>
      obtain ⟨seg, hseg, hc, hkp, _⟩ :=
        mem_filterMap_decodePair _ k v (lastValue_some_mem _ k v hl)
      exact ⟨seg, hseg, hc, hkp⟩
  refine ⟨?_, hkeys, fun seg _ _ hother => ?_, rfl⟩
  · rw [ReadStringMap_eq]
    exact foldl_filter_of_skip _ _
      (fun m seg h => stringMapStep_of_count_ne_one m seg (by simpa using h)) _ _
  · by_contra hk
    obtain ⟨other, hmem, hc, hkp⟩ := hkeys (keyPart seg) hk
    exact hother other hmem hc hkp

/-- Witness of C13 (as amended): in `a=b=c,k=v` only `k=v` has exactly one
`=`; the key `k` of the result is its key part, and the key `a` of the
dropped segment is absent. -/
theorem C13_exactly_one_eq_or_dropped_witness :
    (ReadStringMap (Setenv emptyEnviron "FOO" "a=b=c,k=v") "FOO").hasKey "k" ∧
    (∃ seg ∈ Split (Getenv (Setenv emptyEnviron "FOO" "a=b=c,k=v") "FOO") ',',
      countChar seg '=' = 1 ∧ keyPart seg = "k") ∧
    "a=b=c" ∈ Split (Getenv (Setenv emptyEnviron "FOO" "a=b=c,k=v") "FOO") ',' ∧
    2 ≤ countChar "a=b=c" '=' ∧
    ReadStringMap (Setenv emptyEnviron "FOO" "a=b=c,k=v") "FOO" (keyPart "a=b=c") = none :=
  have h := C13_exactly_one_eq_or_dropped (Setenv emptyEnviron "FOO" "a=b=c,k=v") "FOO"
  ⟨by unfold GoMap.hasKey; decide, h.2.1 "k" (by unfold GoMap.hasKey; decide), by decide,
    by decide, h.2.2.1 "a=b=c" (by decide) (by decide) (by decide)⟩

/-- Counterexample to C13 as stated: in `a=1,a=b=c` the segment `a=b=c` has
two `=` and is dropped, yet its key `a` is present in the result, stored by
the segment `a=1`. -/
theorem C13_exactly_one_eq_or_dropped_counterexample :
    ¬ ("a=b=c" ∈ Split (Getenv (Setenv emptyEnviron "FOO" "a=1,a=b=c") "FOO") ',' →
        2 ≤ countChar "a=b=c" '=' →
        ReadStringMap (Setenv emptyEnviron "FOO" "a=1,a=b=c") "FOO" (keyPart "a=b=c") =
          none) := by
  decide

/-- C14 (as amended): pairs with an empty part are kept. A segment with
exactly one `=` whose key part or value part is empty contributes an entry
like any other: standing last in the raw text, `=t` maps the empty key to
`t` and `t=` maps `t` to the empty text (`=bar` yields `{"": "bar"}`, `foo=`
yields `{"foo": ""}`), so a result mapping can have the empty string as a
key or as a text value. -/
theorem C14_empty_part_kept (env : Environ) (key raw : String) (pre : List String)
    (t : String) (hset : env key = some raw) (hpre : ∀ s ∈ pre, ',' ∉ s.data)
    (ht : ',' ∉ t.data ∧ '=' ∉ t.data) :
    (raw = Join (pre ++ ["" ++ "=" ++ t]) ',' → ReadStringMap env key "" = some t) ∧
    (raw = Join (pre ++ [t ++ "=" ++ ""]) ',' → ReadStringMap env key t = some "") ∧
    ReadStringMap (Setenv emptyEnviron "FOO" "=bar") "FOO" = GoMap.empty.set "" "bar" ∧
    ReadStringMap (Setenv emptyEnviron "FOO" "foo=") "FOO" = GoMap.empty.set "foo" "" := by
  have he : ',' ∉ ("" : String).data ∧ '=' ∉ ("" : String).data := by decide
  exact ⟨fun h => ReadStringMap_last_pair env key raw pre "" t hset h hpre he ht,
    fun h => ReadStringMap_last_pair env key raw pre t "" hset h hpre ht he, rfl, rfl⟩

/-- Witness of C14 (as amended): `a=1,=bar` has the empty string as a key. -/
theorem C14_empty_part_kept_witness :
    "a=1,=bar" = Join (["a=1"] ++ ["" ++ "=" ++ "bar"]) ',' ∧
    ReadStringMap (Setenv emptyEnviron "FOO" "a=1,=bar") "FOO" "" = some "bar" :=
  ⟨by decide,
    (C14_empty_part_kept (Setenv emptyEnviron "FOO" "a=1,=bar") "FOO" "a=1,=bar" ["a=1"]
      "bar" (by decide) (by decide) (by decide)).1 (by decide)⟩

/-- Counterexample to C14 as stated: the segment `=bar`, whose key part is
empty, contributes an entry, and the result has the empty string as a key. -/
theorem C14_empty_part_kept_counterexample :
    ¬ (ReadStringMap (Setenv emptyEnviron "FOO" "=bar") "FOO" "" = none) := by
  decide

/-- C15: duplicate keys, last occurrence wins. For every raw text and every
key `k`, the value stored at `k` in the result of `ReadIntMap` (likewise
`ReadStringMap`) is the one parsed from the last `,`-separated segment whose
key is `k` among the segments that are kept (exactly one `=` and a value that
parses), and `k` is absent when there is no such segment; for example
`a=1,a=2` yields `{"a": 2}`. -/
theorem C15_last_occurrence_wins (env : Environ) (key : String) :
    (∀ k, ReadIntMap env key k =
      lastValue ((Split (Getenv env key) ',').filterMap decodeIntPair) k) ∧
    (∀ k, ReadStringMap env key k =
      lastValue ((Split (Getenv env key) ',').filterMap decodePair) k) ∧
    (∀ k, ReadIntMap (Setenv emptyEnviron "FOO" "a=1,a=2") "FOO" k =
      (GoMap.empty.set "a" 2) k) := by
  refine ⟨ReadIntMap_lookup env key, ReadStringMap_lookup env key, fun k => ?_⟩
  have h : ReadIntMap (Setenv emptyEnviron "FOO" "a=1,a=2") "FOO" =
      (GoMap.empty.set "a" 1).set "a" 2 := rfl
  rw [h]
  by_cases hk : k = "a" <;> simp [GoMap.set, hk]

/-! ### Sequences, joined and counted -/

theorem Join_cons_cons_data (a b : String) (rest : List String) (sep : Char) :
    (Join (a :: b :: rest) sep).data = a.data ++ sep :: (Join (b :: rest) sep).data := by
  have hs : (String.singleton sep).data = [sep] := rfl
  simp only [Join, String.data_append, hs, List.append_assoc, List.singleton_append]

theorem Join_splitList_data (sep : Char) (l : List Char) :
    (Join ((splitList sep l).map String.mk) sep).data = l := by
  induction l with
  | nil => rfl
  | cons c cs ih =>
    have hne := splitList_ne_nil sep cs
    cases hs : splitList sep cs with
    | nil => exact absurd hs hne
    | cons a b =>
      rw [hs] at ih
      by_cases hc : c = sep
      · simp only [splitList, hc, if_true, hs, List.map_cons]
        rw [Join_cons_cons_data]
        simp only [List.map_cons] at ih
        rw [ih]
        rfl
      · simp only [splitList, hc, if_false, hs, List.headD_cons, List.tail_cons, List.map_cons]
        cases b with
        | nil =>
          simp only [List.map_nil, Join] at ih ⊢
          rw [← ih]
        | cons b0 b1 =>
          simp only [List.map_cons] at ih ⊢
          rw [Join_cons_cons_data] at ih ⊢
          rw [← ih]
          rfl

theorem Join_Split (s : String) (sep : Char) : Join (Split s sep) sep = s := by
  apply String.ext
  exact Join_splitList_data sep s.data

theorem length_filterMap_eq_iff {α β : Type} (f : α → Option β) (l : List α) :
    (l.filterMap f).length = l.length ↔ ∀ x ∈ l, f x ≠ none := by
  induction l with
  | nil => simp
  | cons a rest ih =>
    have hle := List.length_filterMap_le f rest
    cases ha : f a with
    | none =>
      rw [List.filterMap_cons_none ha]
      constructor
      · intro h
        simp only [List.length_cons] at h
        omega
      · intro h
        exact absurd ha (h a (by simp))
    | some b =>
      rw [List.filterMap_cons_some ha]
      simp only [List.length_cons, add_left_inj, ih, List.mem_cons, forall_eq_or_imp, ha,
        ne_eq, reduceCtorEq, not_false_eq_true, true_and]

theorem decodeInt_ne_none_iff (s : String) : decodeInt s ≠ none ↔ (Atoi s).2 = none := by
  rw [← Atoi_spec]
  unfold atoiResult okValue
  by_cases h : (Atoi s).2 = none <;> simp [h]

theorem parseBoolResult_ne_none_iff (s : String) :
    parseBoolResult s ≠ none ↔ (ParseBool s).2 = none := by
  unfold parseBoolResult okValue
  by_cases h : (ParseBool s).2 = none <;> simp [h]

/-- C16: lone-comma edge case. When the raw text is exactly `,`,
`ReadStringSlice` returns the two-element sequence `["", ""]`, while
`ReadIntSlice` and `ReadBoolSlice` return sequences of length 0, the empty
segment failing to parse and being dropped. -/
theorem C16_lone_comma (env : Environ) (key : String) (hset : env key = some ",") :
    ReadStringSlice env key = ["", ""] ∧ (ReadIntSlice env key).length = 0 ∧
    (ReadBoolSlice env key).length = 0 ∧
    (Atoi "").2 ≠ none ∧ (ParseBool "").2 ≠ none := by
  have hg := Getenv_of_some env key "," hset
  refine ⟨?_, ?_, ?_, by decide, by decide⟩
  · unfold ReadStringSlice ReadString
    rw [hg]
    decide
  · rw [ReadIntSlice_eq, hg]
    decide
  · rw [ReadBoolSlice_eq, hg]
    decide

/-- Witness of C16: the variable `LIST` holds a lone comma. -/
theorem C16_lone_comma_witness :
    Setenv emptyEnviron "LIST" "," "LIST" = some "," ∧
    ReadStringSlice (Setenv emptyEnviron "LIST" ",") "LIST" = ["", ""] ∧
    (ReadIntSlice (Setenv emptyEnviron "LIST" ",") "LIST").length = 0 :=
  have h := C16_lone_comma (Setenv emptyEnviron "LIST" ",") "LIST" (by decide)
  ⟨by decide, h.1, h.2.1⟩

/-- C17: text sequences are lossless (no trimming, no escaping). For every
raw text, non-empty in particular, joining the elements of `ReadStringSlice`
with `,` gives back the raw text character for character, so leading and
trailing whitespace in every segment is preserved. -/
theorem C17_string_slice_lossless (env : Environ) (key raw : String)
    (hset : env key = some raw) :
    Join (ReadStringSlice env key) ',' = raw := by
  unfold ReadStringSlice ReadString
  rw [Getenv_of_some env key raw hset]
  by_cases he : raw = ""
  · simp [he, Join]
  · simp only [he, if_false]
    exact Join_Split raw ','

/-- Witness of C17: blanks around and inside segments come back unchanged. -/
theorem C17_string_slice_lossless_witness :
    Setenv emptyEnviron "NAMES" " foo , bar,,baz " "NAMES" = some " foo , bar,,baz " ∧
    ReadStringSlice (Setenv emptyEnviron "NAMES" " foo , bar,,baz ") "NAMES" =
      [" foo ", " bar", "", "baz "] ∧
    Join (ReadStringSlice (Setenv emptyEnviron "NAMES" " foo , bar,,baz ") "NAMES") ',' =
      " foo , bar,,baz " :=
  ⟨by decide, by decide,
    C17_string_slice_lossless (Setenv emptyEnviron "NAMES" " foo , bar,,baz ") "NAMES"
      " foo , bar,,baz " (by decide)⟩

/-- C18: sequence length bound. For every non-empty raw text containing `n`
characters `,`, `ReadStringSlice` returns exactly `n + 1` elements, and
`ReadIntSlice` and `ReadBoolSlice` each return at most `n + 1` elements, with
equality exactly when every segment parses. -/
theorem C18_slice_length_bound (env : Environ) (key raw : String)
    (hset : env key = some raw) (hne : raw ≠ "") :
    (ReadStringSlice env key).length = countChar raw ',' + 1 ∧
    (ReadIntSlice env key).length ≤ countChar raw ',' + 1 ∧
    ((ReadIntSlice env key).length = countChar raw ',' + 1 ↔
      ∀ seg ∈ Split raw ',', (Atoi seg).2 = none) ∧
    (ReadBoolSlice env key).length ≤ countChar raw ',' + 1 ∧
    ((ReadBoolSlice env key).length = countChar raw ',' + 1 ↔
      ∀ seg ∈ Split raw ',', (ParseBool seg).2 = none) := by
  have hg := Getenv_of_some env key raw hset
  have hlen := Split_length raw ','
  refine ⟨?_, ?_, ?_, ?_, ?_⟩
  · unfold ReadStringSlice ReadString
    rw [hg]
    simp only [hne, if_false]
    exact hlen
  · rw [ReadIntSlice_eq, hg, ← hlen]
    exact List.length_filterMap_le _ _
  · rw [ReadIntSlice_eq, hg, ← hlen, length_filterMap_eq_iff]
    exact forall_congr' (fun seg => imp_congr Iff.rfl (decodeInt_ne_none_iff seg))
  · rw [ReadBoolSlice_eq, hg, ← hlen]
    exact List.length_filterMap_le _ _
  · rw [ReadBoolSlice_eq, hg, ← hlen, length_filterMap_eq_iff]
    exact forall_congr' (fun seg => imp_congr Iff.rfl (parseBoolResult_ne_none_iff seg))

/-- Witness of C18: `1,0,true` has two commas; the three segments are kept
as text, two of them parse as integers and all three as booleans. -/
theorem C18_slice_length_bound_witness :
    Setenv emptyEnviron "L" "1,0,true" "L" = some "1,0,true" ∧ "1,0,true" ≠ "" ∧
    countChar "1,0,true" ',' = 2 ∧
    (ReadStringSlice (Setenv emptyEnviron "L" "1,0,true") "L").length = 2 + 1 ∧
    (ReadIntSlice (Setenv emptyEnviron "L" "1,0,true") "L").length = 2 ∧
    (ReadBoolSlice (Setenv emptyEnviron "L" "1,0,true") "L").length = 2 + 1 :=
  have h := C18_slice_length_bound (Setenv emptyEnviron "L" "1,0,true") "L" "1,0,true"
    (by decide) (by decide)
  ⟨by decide, by decide, by decide, h.1, by decide, h.2.2.2.2.2 (by decide)⟩

/-! ### Keys of the mappings -/

theorem decodeBoolPair_some (seg k : String) (b : Bool)
    (h : decodeBoolPair seg = some (k, b)) : ∃ v, decodePair seg = some (k, v) := by
  unfold decodeBoolPair at h
  cases hd : decodePair seg with
  | none => simp [hd] at h
  | some p =>
    obtain ⟨k', v⟩ := p
    rw [hd] at h
    cases hv : parseBoolResult v with
    | none => simp [hv] at h
    | some b' =>
      simp only [hv, Option.some.injEq, Prod.mk.injEq] at h
      exact ⟨v, by rw [h.1]⟩

theorem ReadStringMap_hasKey_of_pair (env : Environ) (key seg k v : String)
    (hseg : seg ∈ Split (Getenv env key) ',') (hd : decodePair seg = some (k, v)) :
    (ReadStringMap env key).hasKey k := by
  unfold GoMap.hasKey
  rw [ReadStringMap_lookup]
  cases hl : lastValue ((Split (Getenv env key) ',').filterMap decodePair) k with
  | some w => simp
  | none =>
    exact absurd hl (lastValue_isSome_iff _ k |>.2
      (List.mem_map.2 ⟨(k, v), List.mem_filterMap.2 ⟨seg, hseg, hd⟩, rfl⟩))

theorem ReadStringMap_key_clean (env : Environ) (key k : String)
    (hk : (ReadStringMap env key).hasKey k) : ',' ∉ k.data ∧ '=' ∉ k.data := by
  unfold GoMap.hasKey at hk
  rw [ReadStringMap_lookup] at hk
  cases hl : lastValue ((Split (Getenv env key) ',').filterMap decodePair) k with
  | none => exact absurd hl hk
  | some v =>
    obtain ⟨seg, hseg, _, hkp, _⟩ :=
      mem_filterMap_decodePair _ k v (lastValue_some_mem _ k v hl)
    rw [← hkp]
    exact ⟨fun hc => comma_not_mem_of_mem_Split _ seg hseg (keyPart_subset seg ',' hc),
      keyPart_no_eq seg⟩

/-- C19: typed mappings never invent keys. For every raw text, every key of
`ReadIntMap` and of `ReadBoolMap` is also a key of `ReadStringMap` for the
same raw text, and no key of any of these mappings contains `,` or `=`. -/
theorem C19_typed_map_keys (env : Environ) (key : String) :
    (∀ k, (ReadIntMap env key).hasKey k → (ReadStringMap env key).hasKey k) ∧
    (∀ k, (ReadBoolMap env key).hasKey k → (ReadStringMap env key).hasKey k) ∧
    (∀ k, (ReadStringMap env key).hasKey k → ',' ∉ k.data ∧ '=' ∉ k.data) ∧
    (∀ k, (ReadIntMap env key).hasKey k → ',' ∉ k.data ∧ '=' ∉ k.data) ∧
    (∀ k, (ReadBoolMap env key).hasKey k → ',' ∉ k.data ∧ '=' ∉ k.data) := by
  have hint : ∀ k, (ReadIntMap env key).hasKey k → (ReadStringMap env key).hasKey k := by
    intro k hk
    unfold GoMap.hasKey at hk
    rw [ReadIntMap_lookup] at hk
    cases hl : lastValue ((Split (Getenv env key) ',').filterMap decodeIntPair) k with
    | none => exact absurd hl hk
    | some n =>
      obtain ⟨seg, hseg, hd⟩ := List.mem_filterMap.1 (lastValue_some_mem _ k n hl)
      obtain ⟨v, hv, _⟩ := decodeIntPair_some seg k n hd
      exact ReadStringMap_hasKey_of_pair env key seg k v hseg hv
  have hbool : ∀ k, (ReadBoolMap env key).hasKey k → (ReadStringMap env key).hasKey k := by
    intro k hk
    unfold GoMap.hasKey at hk
    rw [ReadBoolMap_lookup] at hk
    cases hl : lastValue ((Split (Getenv env key) ',').filterMap decodeBoolPair) k with
    | none => exact absurd hl hk
    | some b =>
      obtain ⟨seg, hseg, hd⟩ := List.mem_filterMap.1 (lastValue_some_mem _ k b hl)
      obtain ⟨v, hv⟩ := decodeBoolPair_some seg k b hd
      exact ReadStringMap_hasKey_of_pair env key seg k v hseg hv
  exact ⟨hint, hbool, ReadStringMap_key_clean env key,
    fun k hk => ReadStringMap_key_clean env key k (hint k hk),
    fun k hk => ReadStringMap_key_clean env key k (hbool k hk)⟩

/-- Witness of C19: in `a=1,b=x,c=true` the integer key `a` and the boolean
keys `a` and `c` are keys of the text mapping. -/
theorem C19_typed_map_keys_witness :
    (ReadIntMap (Setenv emptyEnviron "M" "a=1,b=x,c=true") "M").hasKey "a" ∧
    (ReadBoolMap (Setenv emptyEnviron "M" "a=1,b=x,c=true") "M").hasKey "c" ∧
    (ReadStringMap (Setenv emptyEnviron "M" "a=1,b=x,c=true") "M").hasKey "a" ∧
    (ReadStringMap (Setenv emptyEnviron "M" "a=1,b=x,c=true") "M").hasKey "c" :=
  have h := C19_typed_map_keys (Setenv emptyEnviron "M" "a=1,b=x,c=true") "M"
  ⟨by unfold GoMap.hasKey; decide, by unfold GoMap.hasKey; decide,
    h.1 "a" (by unfold GoMap.hasKey; decide), h.2.1 "c" (by unfold GoMap.hasKey; decide)⟩

end Envreader
